import Mathlib

/-!
Verification development for the cattleshed session engine
(src/cattleshed/src/server.cc).

The definitions below are a shallow embedding of the per-connection
session engine: the framed wire codec (`socket_write_buffer` framing and
the `qi` inbound grammar of `compiler_bridge`), the path stager
(`program_writer::recursive_create_open_at`), the output limiter
(`program_runner::write_limit_counter`), the command construction and
two-phase orchestration of `program_runner::operator()`, the protocol
dispatch of `compiler_bridge::operator()`, and the admission semaphore
(`counting_semaphore` + `listener`).

Byte strings are modelled as `List Nat` (one entry per byte) where the
wire level matters, and as Lean `String`s at the frame level where only
equality of command names matters.  The quoted-printable transform lives
in quoted_printable.hpp, which is not part of the sources at hand; it is
modelled from the specification (see `qp_encode` / `qp_decode`).
-/

/-- Bytes of an ASCII string literal, used to state wire-level properties. -/
def strBytes (s : String) : List Nat := s.toList.map Char.toNat

/-! ### PathStager: program_writer::recursive_create_open_at -/

/-- Embedding of `boost::algorithm::split(dirs, filename, is_any_of("/"))`
for a single separator byte: splits a byte list on the separator, keeping
empty pieces, and yields `[[]]` on empty input (as boost does). -/
def split_sep (sep : Nat) : List Nat → List (List Nat)
  | [] => [[]]
  | b :: rest =>
    if b = sep then [] :: split_sep sep rest
    else
      match split_sep sep rest with
      | s :: ss => (b :: s) :: ss
      | [] => [[b]]

theorem split_sep_ne_nil (sep : Nat) (l : List Nat) : split_sep sep l ≠ [] := by
  induction l with
  | nil => simp [split_sep]
  | cons b rest ih =>
    simp only [split_sep]
    by_cases h : b = sep
    · simp [h]
    · simp only [if_neg h]
      cases hs : split_sep sep rest with
      | nil => simp
      | cons s ss => simp

/-- Embedding of the directory-walking loop of `recursive_create_open_at`
(server.cc lines 578-593).  The stack of intermediate directory file
descriptors is modelled as the list of directory names opened so far,
most recent first.  Empty and `"."` segments are skipped, `".."` pops one
entry and fails when the stack is empty, and any other segment is pushed
(`mkdirat` + `openat` are abstracted as succeeding, as the claim is about
the path-checking logic). -/
def walk_dirs : List (List Nat) → List (List Nat) → Option (List (List Nat))
  | [], stack => some stack
  | d :: rest, stack =>
    if d = [] then walk_dirs rest stack
    else if d = [46] then walk_dirs rest stack
    else if d = [46, 46] then
      match stack with
      | [] => none
      | _ :: s => walk_dirs rest s
    else walk_dirs rest (d :: stack)

/-- Embedding of `program_writer::recursive_create_open_at` (server.cc
lines 556-599).  `none` models returning `-1` before the target file is
ever opened; `some (stack, target)` models opening `target` relative to
the deepest directory on `stack` (or the root fd when the stack is
empty).  Note `filename[0]` on an empty `std::string` reads the
terminating NUL, modelled by `headD 0`. -/
def recursive_create_open_at (filename : List Nat) : Option (List (List Nat) × List Nat) :=
  if filename.headD 0 = 47 then none
  else
    match h : split_sep 47 filename with
    | [] => none
    | d :: ds =>
      let dirs := d :: ds
      let target := dirs.getLast (by simp)
      match walk_dirs dirs.dropLast [] with
      | none => none
      | some stack => some (stack, target)

/-- Predicate describing the inputs on which the directory walk hits a
`".."` while the intermediate-directory stack is empty, expressed with a
depth counter instead of the stack itself. -/
def dotdot_escape : List (List Nat) → Nat → Bool
  | [], _ => false
  | d :: rest, depth =>
    if d = [] then dotdot_escape rest depth
    else if d = [46] then dotdot_escape rest depth
    else if d = [46, 46] then
      match depth with
      | 0 => true
      | n + 1 => dotdot_escape rest n
    else dotdot_escape rest (depth + 1)

theorem walk_dirs_none_iff (ds : List (List Nat)) :
    ∀ stack : List (List Nat), walk_dirs ds stack = none ↔ dotdot_escape ds stack.length = true := by
  induction ds with
  | nil => intro s; simp [walk_dirs, dotdot_escape]
  | cons d rest ih =>
    intro s
    by_cases h0 : d = []
    · simp [walk_dirs, dotdot_escape, h0, ih s]
    · by_cases h1 : d = [46]
      · simp [walk_dirs, dotdot_escape, h0, h1, ih s]
      · by_cases h2 : d = [46, 46]
        · cases s with
          | nil => simp [walk_dirs, dotdot_escape, h0, h1, h2]
          | cons t s' => simp [walk_dirs, dotdot_escape, h0, h1, h2, ih s']
        · simpa [walk_dirs, dotdot_escape, h0, h1, h2] using ih (d :: s)

/-- Claim C3: `recursive_create_open_at` fails, before opening any target
file, for every path that begins with a `/` byte and for every path whose
directory segments hit a `".."` when the intermediate-directory stack is
empty; in particular it rejects "/etc/passwd", "../../etc/passwd" and
"a/../../b", while it accepts "a/b/c" and "./a" (empty and "." segments
are skipped, ".." pops one directory). -/
theorem c3_path_stager :
    (∀ p : List Nat, p.headD 0 = 47 → recursive_create_open_at p = none) ∧
    (∀ p : List Nat, dotdot_escape ((split_sep 47 p).dropLast) 0 = true →
      recursive_create_open_at p = none) ∧
    recursive_create_open_at (strBytes "/etc/passwd") = none ∧
    recursive_create_open_at (strBytes "../../etc/passwd") = none ∧
    recursive_create_open_at (strBytes "a/../../b") = none ∧
    (recursive_create_open_at (strBytes "a/b/c")).isSome = true ∧
    (recursive_create_open_at (strBytes "./a")).isSome = true := by
  refine ⟨?_, ?_, by decide, by decide, by decide, by decide, by decide⟩
  · intro p hp
    unfold recursive_create_open_at
    rw [if_pos hp]
  · intro p hp
    unfold recursive_create_open_at
    by_cases hh : p.headD 0 = 47
    · rw [if_pos hh]
    · rw [if_neg hh]
      cases hs : split_sep 47 p with
      | nil => rfl
      | cons d ds =>
        have hw : walk_dirs (d :: ds).dropLast [] = none := by
          rw [walk_dirs_none_iff]
          simpa [hs] using hp
        simp [hw]

/-- Witness for `c3_path_stager`: its two universally quantified parts
applied at concrete inputs, with the hypotheses discharged by `decide`. -/
theorem c3_path_stager_witness :
    recursive_create_open_at (strBytes "/x") = none ∧
    recursive_create_open_at (strBytes "../x") = none :=
  ⟨c3_path_stager.1 (strBytes "/x") (by decide),
   c3_path_stager.2.1 (strBytes "../x") (by decide)⟩

/-! ### FrameCodec: quoted-printable payloads and the `CMD LEN:DATA\n` framing -/

/-- Character class matched by `qi::space` (the default ASCII whitespace
set: space, tab, LF, VT, FF, CR). -/
def isSpaceByte (b : Nat) : Bool :=
  b == 32 || b == 9 || b == 10 || b == 11 || b == 12 || b == 13

/-- ASCII decimal digit test. -/
def isDigitByte (b : Nat) : Bool := decide (48 ≤ b) && decide (b ≤ 57)

/-- Uppercase hexadecimal digit for a nibble. -/
def hexDigitChar (n : Nat) : Nat := if n < 10 then 48 + n else 55 + n

/-- Hexadecimal digit test (both cases, as a quoted-printable decoder
accepts). -/
def isHexDigitByte (b : Nat) : Bool :=
  (decide (48 ≤ b) && decide (b ≤ 57)) ||
  (decide (65 ≤ b) && decide (b ≤ 70)) ||
  (decide (97 ≤ b) && decide (b ≤ 102))

/-- Value of a hexadecimal digit byte. -/
def hexVal (b : Nat) : Nat :=
  if decide (48 ≤ b) && decide (b ≤ 57) then b - 48
  else if decide (65 ≤ b) && decide (b ≤ 70) then b - 55
  else b - 87

/-- Modelled from the spec: `quoted_printable::encode` (quoted_printable.hpp
is not among the sources).  A printable ASCII byte other than `=` is
passed through; every other byte is emitted as `=` followed by two
uppercase hex digits.  Soft line breaks are not modelled. -/
def qp_encode_byte (b : Nat) : List Nat :=
  if b = 61 ∨ b < 32 ∨ 126 < b then [61, hexDigitChar (b / 16), hexDigitChar (b % 16)]
  else [b]

/-- Modelled from the spec: quoted-printable encoding of a byte string. -/
def qp_encode : List Nat → List Nat
  | [] => []
  | b :: rest => qp_encode_byte b ++ qp_encode rest

/-- Modelled from the spec: `quoted_printable::decode`, in fuel-recursive
form so that it evaluates by kernel reduction (the fuel only needs to be
at least the input length; `qp_decode` passes the length).  An `=`
followed by two hex digits becomes the denoted byte; any other byte
passes through unchanged. -/
def qp_decode_aux : Nat → List Nat → List Nat
  | 0, _ => []
  | _ + 1, [] => []
  | fuel + 1, 61 :: h1 :: h2 :: rest2 =>
    if isHexDigitByte h1 && isHexDigitByte h2 then
      (hexVal h1 * 16 + hexVal h2) :: qp_decode_aux fuel rest2
    else 61 :: qp_decode_aux fuel (h1 :: h2 :: rest2)
  | fuel + 1, b :: rest => b :: qp_decode_aux fuel rest

/-- Modelled from the spec: quoted-printable decoding of a byte string. -/
def qp_decode (l : List Nat) : List Nat := qp_decode_aux l.length l

theorem qp_decode_aux_nil (fuel : Nat) : qp_decode_aux fuel [] = [] := by
  cases fuel <;> rfl

theorem qp_decode_aux_eq3 (fuel : Nat) (h1 h2 : Nat) (r2 : List Nat) :
    qp_decode_aux (fuel + 1) (61 :: h1 :: h2 :: r2) =
      if isHexDigitByte h1 && isHexDigitByte h2 then
        (hexVal h1 * 16 + hexVal h2) :: qp_decode_aux fuel r2
      else 61 :: qp_decode_aux fuel (h1 :: h2 :: r2) := by
  rw [qp_decode_aux]

theorem qp_decode_aux_cons_ne (fuel : Nat) (b : Nat) (hb : b ≠ 61) (rest : List Nat) :
    qp_decode_aux (fuel + 1) (b :: rest) = b :: qp_decode_aux fuel rest := by
  rw [qp_decode_aux]
  intro c1 c2 r2 heq _
  exact hb heq

theorem qp_decode_aux_eq1 (fuel : Nat) :
    qp_decode_aux (fuel + 1) [61] = 61 :: qp_decode_aux fuel [] := by
  rw [qp_decode_aux]
  intro c1 c2 r2 _ h
  simp at h

theorem qp_decode_aux_eq2 (fuel : Nat) (h1 : Nat) :
    qp_decode_aux (fuel + 1) [61, h1] = 61 :: qp_decode_aux fuel [h1] := by
  rw [qp_decode_aux]
  intro c1 c2 r2 _ h
  simp at h

theorem qp_decode_aux_irrel (fuel : Nat) :
    ∀ (fuel' : Nat) (l : List Nat), l.length ≤ fuel → l.length ≤ fuel' →
      qp_decode_aux fuel l = qp_decode_aux fuel' l := by
  induction fuel with
  | zero =>
    intro fuel' l h1 h2
    have hl : l = [] := by
      cases l with
      | nil => rfl
      | cons a t => simp at h1
    subst hl
    rw [qp_decode_aux_nil, qp_decode_aux_nil]
  | succ f ih =>
    intro fuel' l h1 h2
    cases fuel' with
    | zero =>
      have hl : l = [] := by
        cases l with
        | nil => rfl
        | cons a t => simp at h2
      subst hl
      rw [qp_decode_aux_nil, qp_decode_aux_nil]
    | succ f' =>
      cases l with
      | nil => rw [qp_decode_aux_nil, qp_decode_aux_nil]
      | cons b rest =>
        simp only [List.length_cons] at h1 h2
        by_cases hb : b = 61
        · subst hb
          match rest with
          | [] => rw [qp_decode_aux_eq1, qp_decode_aux_eq1, qp_decode_aux_nil, qp_decode_aux_nil]
          | [c1] =>
            rw [qp_decode_aux_eq2, qp_decode_aux_eq2,
              ih f' [c1] (by simp at h1 ⊢; omega) (by simp at h2 ⊢; omega)]
          | c1 :: c2 :: r2 =>
            rw [qp_decode_aux_eq3, qp_decode_aux_eq3]
            simp only [List.length_cons] at h1 h2
            by_cases hh : isHexDigitByte c1 && isHexDigitByte c2
            · rw [if_pos hh, if_pos hh, ih f' r2 (by omega) (by omega)]
            · rw [if_neg hh, if_neg hh,
                ih f' (c1 :: c2 :: r2) (by simp; omega) (by simp; omega)]
        · rw [qp_decode_aux_cons_ne f b hb, qp_decode_aux_cons_ne f' b hb,
            ih f' rest (by omega) (by omega)]

theorem qp_decode_cons_ne (b : Nat) (hb : b ≠ 61) (l : List Nat) :
    qp_decode (b :: l) = b :: qp_decode l := by
  rw [qp_decode, qp_decode, List.length_cons, qp_decode_aux_cons_ne _ b hb]

theorem qp_decode_eq3 (h1 h2 : Nat) (r2 : List Nat) :
    qp_decode (61 :: h1 :: h2 :: r2) =
      if isHexDigitByte h1 && isHexDigitByte h2 then
        (hexVal h1 * 16 + hexVal h2) :: qp_decode r2
      else 61 :: qp_decode (h1 :: h2 :: r2) := by
  rw [qp_decode, List.length_cons, List.length_cons, List.length_cons, qp_decode_aux_eq3]
  by_cases hh : isHexDigitByte h1 && isHexDigitByte h2
  · rw [if_pos hh, if_pos hh, qp_decode,
      qp_decode_aux_irrel (r2.length + 1 + 1) r2.length r2 (by omega) (by omega)]
  · rw [if_neg hh, if_neg hh, qp_decode]
    simp

theorem hex_digit_inv (n : Nat) (h : n < 16) :
    isHexDigitByte (hexDigitChar n) = true ∧ hexVal (hexDigitChar n) = n := by
  revert h
  revert n
  decide

/-- Decoding inverts encoding on byte strings (every entry below 256). -/
theorem qp_roundtrip (l : List Nat) (h : ∀ b ∈ l, b < 256) :
    qp_decode (qp_encode l) = l := by
  induction l with
  | nil => rfl
  | cons b rest ih =>
    have hb : b < 256 := h b (by simp)
    have hrest : ∀ x ∈ rest, x < 256 := fun x hx => h x (by simp [hx])
    show qp_decode (qp_encode_byte b ++ qp_encode rest) = b :: rest
    by_cases hc : b = 61 ∨ b < 32 ∨ 126 < b
    · have h1 := hex_digit_inv (b / 16) (by omega)
      have h2 := hex_digit_inv (b % 16) (by omega)
      rw [qp_encode_byte, if_pos hc]
      simp only [List.cons_append, List.nil_append]
      rw [qp_decode_eq3, h1.1, h2.1]
      simp only [Bool.and_self, if_pos]
      rw [h1.2, h2.2, ih hrest]
      congr 1
      omega
    · push_neg at hc
      rw [qp_encode_byte, if_neg (by push_neg; exact hc)]
      simp only [List.cons_append, List.nil_append]
      rw [qp_decode_cons_ne b hc.1, ih hrest]

/-- ASCII decimal digits of a natural number, fuel-recursive accumulator
form (models `std::to_string` on an unsigned value; the fuel only needs
to exceed the number, `nat_to_dec` passes `n + 1`). -/
def nat_to_dec_aux : Nat → Nat → List Nat → List Nat
  | 0, _, acc => acc
  | fuel + 1, n, acc =>
    if n < 10 then (48 + n) :: acc
    else nat_to_dec_aux fuel (n / 10) ((48 + n % 10) :: acc)

/-- ASCII decimal digits of a natural number. -/
def nat_to_dec (n : Nat) : List Nat := nat_to_dec_aux (n + 1) n []

theorem nat_to_dec_aux_spec :
    ∀ n fuel acc, n < fuel → nat_to_dec_aux fuel n acc = nat_to_dec n ++ acc := by
  intro n
  induction n using Nat.strong_induction_on with
  | _ n ih =>
    intro fuel acc hf
    cases fuel with
    | zero => omega
    | succ f =>
      rw [nat_to_dec_aux]
      by_cases h : n < 10
      · rw [if_pos h, nat_to_dec, nat_to_dec_aux, if_pos h]
        rfl
      · have hd : n / 10 < n := Nat.div_lt_self (by omega) (by omega)
        have hrhs : nat_to_dec n = nat_to_dec (n / 10) ++ [48 + n % 10] := by
          rw [nat_to_dec, nat_to_dec_aux, if_neg h, ih (n / 10) hd n _ (by omega)]
        rw [if_neg h, ih (n / 10) hd f _ (by omega), hrhs]
        simp

theorem nat_to_dec_base (n : Nat) (h : n < 10) : nat_to_dec n = [48 + n] := by
  rw [nat_to_dec, nat_to_dec_aux, if_pos h]

theorem nat_to_dec_step (n : Nat) (h : ¬ n < 10) :
    nat_to_dec n = nat_to_dec (n / 10) ++ [48 + n % 10] := by
  rw [nat_to_dec, nat_to_dec_aux, if_neg h,
    nat_to_dec_aux_spec (n / 10) n _ (Nat.div_lt_self (by omega) (by omega))]

theorem nat_to_dec_ne_nil (n : Nat) : nat_to_dec n ≠ [] := by
  by_cases h : n < 10
  · rw [nat_to_dec_base n h]
    simp
  · rw [nat_to_dec_step n h]
    simp

theorem nat_to_dec_digits (n : Nat) : ∀ b ∈ nat_to_dec n, isDigitByte b = true := by
  induction n using Nat.strong_induction_on with
  | _ n ih =>
    by_cases h : n < 10
    · rw [nat_to_dec_base n h]
      intro b hb
      simp only [List.mem_singleton] at hb
      simp only [isDigitByte, hb, Bool.and_eq_true, decide_eq_true_eq]
      omega
    · rw [nat_to_dec_step n h]
      intro b hb
      rcases List.mem_append.mp hb with h1 | h2
      · exact ih _ (Nat.div_lt_self (by omega) (by omega)) b h1
      · simp only [List.mem_singleton] at h2
        simp only [isDigitByte, h2, Bool.and_eq_true, decide_eq_true_eq]
        omega

/-- Digit-accumulating loop of `qi::int_`: consumes leading decimal
digits, folding them into the accumulator; stops at the first non-digit. -/
def parse_digits : List Nat → Nat → Nat × List Nat
  | [], acc => (acc, [])
  | b :: rest, acc =>
    if isDigitByte b then parse_digits rest (acc * 10 + (b - 48))
    else (acc, b :: rest)

/-- Digit part of `qi::int_`: at least one decimal digit, failing on
`int` overflow (spirit numeric parsers fail rather than wrap). -/
def parse_int_digits (l : List Nat) (neg : Bool) : Option (Int × List Nat) :=
  match l with
  | [] => none
  | b :: _ =>
    if isDigitByte b then
      let p := parse_digits l 0
      if neg then
        if p.1 ≤ 2147483648 then some (-(p.1 : Int), p.2) else none
      else
        if p.1 ≤ 2147483647 then some ((p.1 : Int), p.2) else none
    else none

/-- Embedding of `qi::int_`: an optional sign followed by decimal digits. -/
def parse_int (l : List Nat) : Option (Int × List Nat) :=
  match l with
  | [] => none
  | b :: rest =>
    if b = 45 then parse_int_digits rest true
    else if b = 43 then parse_int_digits rest false
    else parse_int_digits l false

theorem parse_digits_stop (l : List Nat) (acc : Nat)
    (h : ∀ b, l.head? = some b → isDigitByte b = false) :
    parse_digits l acc = (acc, l) := by
  cases l with
  | nil => rfl
  | cons b rest => rw [parse_digits, if_neg (by simp [h b rfl])]

theorem parse_digits_append (ds : List Nat) (hds : ∀ b ∈ ds, isDigitByte b = true) :
    ∀ (rest : List Nat) (acc : Nat),
      parse_digits (ds ++ rest) acc =
        parse_digits rest (ds.foldl (fun a b => a * 10 + (b - 48)) acc) := by
  induction ds with
  | nil => intro rest acc; rfl
  | cons d t ih =>
    intro rest acc
    have hd : isDigitByte d = true := hds d (by simp)
    rw [List.cons_append, parse_digits, if_pos hd, List.foldl_cons,
      ih (fun b hb => hds b (by simp [hb]))]

theorem nat_to_dec_foldl (n : Nat) :
    ∀ a : Nat, (nat_to_dec n).foldl (fun a b => a * 10 + (b - 48)) a =
      a * 10 ^ (nat_to_dec n).length + n := by
  induction n using Nat.strong_induction_on with
  | _ n ih =>
    intro a
    by_cases h : n < 10
    · rw [nat_to_dec_base n h]
      simp only [List.foldl_cons, List.foldl_nil, List.length_cons, List.length_nil,
        pow_succ, pow_zero, one_mul]
      omega
    · have hd : n / 10 < n := Nat.div_lt_self (by omega) (by omega)
      rw [nat_to_dec_step n h, List.foldl_append, ih _ hd a, List.length_append]
      simp only [List.foldl_cons, List.foldl_nil, List.length_cons, List.length_nil]
      have h48 : 48 + n % 10 - 48 = n % 10 := by omega
      rw [h48, pow_succ, ← Nat.mul_assoc]
      generalize a * 10 ^ (nat_to_dec (n / 10)).length = A
      omega

theorem take_len_append (xs ys : List Nat) : (xs ++ ys).take xs.length = xs := by
  induction xs with
  | nil => rfl
  | cons a t ih => simp [ih]

theorem drop_len_append (xs ys : List Nat) : (xs ++ ys).drop xs.length = ys := by
  induction xs with
  | nil => rfl
  | cons a t ih => simp [ih]

theorem takeWhile_append_stop (p : Nat → Bool) (xs : List Nat) (y : Nat) (rest : List Nat)
    (hxs : ∀ x ∈ xs, p x = true) (hy : p y = false) :
    (xs ++ y :: rest).takeWhile p = xs := by
  induction xs with
  | nil => simp [List.takeWhile, hy]
  | cons a t ih =>
    have ha : p a = true := hxs a (by simp)
    simp only [List.cons_append, List.takeWhile]
    rw [ha]
    simp [ih (fun x hx => hxs x (by simp [hx]))]

theorem dropWhile_cons_stop (p : Nat → Bool) (y : Nat) (rest : List Nat) (hy : p y = false) :
    (y :: rest).dropWhile p = y :: rest := by
  simp [List.dropWhile, hy]

theorem digit_not_space (b : Nat) (h : isDigitByte b = true) : isSpaceByte b = false := by
  have h1 : 48 ≤ b ∧ b ≤ 57 := by simpa [isDigitByte] using h
  simp only [isSpaceByte, Bool.or_eq_false_iff, beq_eq_false_iff_ne, ne_eq]
  omega

/-- Wire framing performed by `socket_write_buffer::async_write_command`
(server.cc line 116): `cmd " " decimal(len(qp)) ":" qp "\n"` with `qp`
the quoted-printable encoding of the payload. -/
def async_write_command (cmd payload : List Nat) : List Nat :=
  cmd ++ [32] ++ nat_to_dec (qp_encode payload).length ++ [58] ++ qp_encode payload ++ [10]

/-- Command token of an inbound frame: `+(qi::char_ - qi::space)`
(server.cc line 711). -/
def frame_command (l : List Nat) : List Nat := l.takeWhile (fun b => !isSpaceByte b)

/-- Rest of the buffer after the command token and `qi::omit[*qi::space]`. -/
def frame_after_command (l : List Nat) : List Nat :=
  (l.drop (frame_command l).length).dropWhile isSpaceByte

/-- Embedding of `qi::eol`: LF, CR, or CRLF. -/
def eol_split : List Nat → Option (List Nat)
  | 13 :: 10 :: r5 => some r5
  | 13 :: r5 => some r5
  | 10 :: r5 => some r5
  | _ => none

/-- Payload part of the inbound grammar: `':' >> repeat(len)[char_] >> eol`
(a negative `len` repeats zero times).  Returns the parsed triple. -/
def parse_frame_finish (cmd : List Nat) (k : Nat) (r3 : List Nat) :
    Option (List Nat × List Nat × List Nat) :=
  if r3.length < k then none
  else (eol_split (r3.drop k)).map (fun r5 => (cmd, r3.take k, r5))

/-- Embedding of the inbound frame grammar of `compiler_bridge::operator()`
(server.cc line 711): one or more non-whitespace bytes (the command), any
whitespace, a `qi::int_` length, a `:`, exactly `length` payload bytes and
an end of line.  Yields the command, the still-encoded payload and the
unconsumed remainder; `none` when no complete frame parses. -/
def parse_frame (l : List Nat) : Option (List Nat × List Nat × List Nat) :=
  if (frame_command l).isEmpty then none
  else
    match parse_int (frame_after_command l) with
    | none => none
    | some (len, r2) =>
      match r2 with
      | 58 :: r3 => parse_frame_finish (frame_command l) len.toNat r3
      | _ => none

/-- Inbound decoding as `compiler_bridge` performs it for ordinary frames:
parse one frame, then quoted-printable-decode the payload (server.cc
lines 711 and 728-732). -/
def decode_frame (l : List Nat) : Option (List Nat × List Nat × List Nat) :=
  (parse_frame l).map (fun t => (t.1, qp_decode t.2.1, t.2.2))

theorem eol_split_lf (r5 : List Nat) : eol_split (10 :: r5) = some r5 := by
  rw [eol_split]

theorem parse_frame_eval (l cmd : List Nat) (L : Int) (r3 : List Nat)
    (hfc : frame_command l = cmd) (hne : cmd.isEmpty = false)
    (hpi : parse_int (frame_after_command l) = some (L, 58 :: r3)) :
    parse_frame l = parse_frame_finish cmd L.toNat r3 := by
  unfold parse_frame
  rw [hfc, hpi, if_neg (by simp [hne])]

theorem parse_frame_finish_eval (cmd q : List Nat) :
    parse_frame_finish cmd q.length (q ++ [10]) = some (cmd, q, []) := by
  unfold parse_frame_finish
  rw [if_neg (by simp), drop_len_append, take_len_append, eol_split_lf]
  rfl

theorem parse_encoded_frame (c q : List Nat) (hc1 : c ≠ [])
    (hc2 : ∀ b ∈ c, isSpaceByte b = false) (hlen : q.length ≤ 2147483647) :
    parse_frame (c ++ 32 :: (nat_to_dec q.length ++ 58 :: (q ++ [10]))) = some (c, q, []) := by
  obtain ⟨d, D', hD⟩ : ∃ d D', nat_to_dec q.length = d :: D' := by
    cases hc : nat_to_dec q.length with
    | nil => exact absurd hc (nat_to_dec_ne_nil _)
    | cons d D' => exact ⟨d, D', rfl⟩
  have hDdig : ∀ b ∈ nat_to_dec q.length, isDigitByte b = true := nat_to_dec_digits _
  have hd_dig : isDigitByte d = true := hDdig d (by rw [hD]; simp)
  have hd_bounds : 48 ≤ d ∧ d ≤ 57 := by simpa [isDigitByte] using hd_dig
  have hfc : frame_command (c ++ 32 :: (nat_to_dec q.length ++ 58 :: (q ++ [10]))) = c := by
    unfold frame_command
    exact takeWhile_append_stop _ c 32 _ (fun x hx => by simp [hc2 x hx]) rfl
  have hfac : frame_after_command (c ++ 32 :: (nat_to_dec q.length ++ 58 :: (q ++ [10])))
      = nat_to_dec q.length ++ 58 :: (q ++ [10]) := by
    unfold frame_after_command
    rw [hfc, drop_len_append, List.dropWhile_cons]
    simp only [show isSpaceByte 32 = true from rfl, if_true]
    rw [hD, List.cons_append]
    exact dropWhile_cons_stop _ d _ (digit_not_space d hd_dig)
  have hfoldval : List.foldl (fun a b => a * 10 + (b - 48)) 0 (nat_to_dec q.length) = q.length := by
    rw [nat_to_dec_foldl]
    simp
  have hpd : parse_digits (nat_to_dec q.length ++ 58 :: (q ++ [10])) 0
      = (q.length, 58 :: (q ++ [10])) := by
    rw [parse_digits_append _ hDdig,
      parse_digits_stop _ _ (by intro b hb; simp at hb; subst hb; rfl), hfoldval]
  have hpi : parse_int (nat_to_dec q.length ++ 58 :: (q ++ [10]))
      = some ((q.length : Int), 58 :: (q ++ [10])) := by
    rw [hD, List.cons_append, parse_int]
    rw [if_neg (by omega), if_neg (by omega), parse_int_digits]
    rw [if_pos hd_dig, ← List.cons_append, ← hD, hpd]
    simp [hlen]
  rw [parse_frame_eval _ c (q.length : Int) (q ++ [10]) hfc
    (by cases c with
      | nil => exact absurd rfl hc1
      | cons a t => rfl)
    (by rw [hfac]; exact hpi)]
  rw [Int.toNat_natCast]
  exact parse_frame_finish_eval c q

theorem qp_encode_replicate_zero_len (n : Nat) :
    (qp_encode (List.replicate n 0)).length = 3 * n := by
  induction n with
  | zero => rfl
  | succ m ih =>
    rw [List.replicate_succ]
    show (qp_encode_byte 0 ++ qp_encode (List.replicate m 0)).length = 3 * (m + 1)
    rw [List.length_append, ih]
    have h3 : (qp_encode_byte 0).length = 3 := by decide
    rw [h3]
    omega

theorem parse_encoded_frame_overflow (c q : List Nat) (hc1 : c ≠ [])
    (hc2 : ∀ b ∈ c, isSpaceByte b = false) (hlen : 2147483647 < q.length) :
    parse_frame (c ++ 32 :: (nat_to_dec q.length ++ 58 :: (q ++ [10]))) = none := by
  obtain ⟨d, D', hD⟩ : ∃ d D', nat_to_dec q.length = d :: D' := by
    cases hc : nat_to_dec q.length with
    | nil => exact absurd hc (nat_to_dec_ne_nil _)
    | cons d D' => exact ⟨d, D', rfl⟩
  have hDdig : ∀ b ∈ nat_to_dec q.length, isDigitByte b = true := nat_to_dec_digits _
  have hd_dig : isDigitByte d = true := hDdig d (by rw [hD]; simp)
  have hd_bounds : 48 ≤ d ∧ d ≤ 57 := by simpa [isDigitByte] using hd_dig
  have hfc : frame_command (c ++ 32 :: (nat_to_dec q.length ++ 58 :: (q ++ [10]))) = c := by
    unfold frame_command
    exact takeWhile_append_stop _ c 32 _ (fun x hx => by simp [hc2 x hx]) rfl
  have hfac : frame_after_command (c ++ 32 :: (nat_to_dec q.length ++ 58 :: (q ++ [10])))
      = nat_to_dec q.length ++ 58 :: (q ++ [10]) := by
    unfold frame_after_command
    rw [hfc, drop_len_append, List.dropWhile_cons]
    simp only [show isSpaceByte 32 = true from rfl, if_true]
    rw [hD, List.cons_append]
    exact dropWhile_cons_stop _ d _ (digit_not_space d hd_dig)
  have hfoldval : List.foldl (fun a b => a * 10 + (b - 48)) 0 (nat_to_dec q.length) = q.length := by
    rw [nat_to_dec_foldl]
    simp
  have hpd : parse_digits (nat_to_dec q.length ++ 58 :: (q ++ [10])) 0
      = (q.length, 58 :: (q ++ [10])) := by
    rw [parse_digits_append _ hDdig,
      parse_digits_stop _ _ (by intro b hb; simp at hb; subst hb; rfl), hfoldval]
  have hnot : ¬ (q.length ≤ 2147483647) := by omega
  have hpi : parse_int (nat_to_dec q.length ++ 58 :: (q ++ [10])) = none := by
    rw [hD, List.cons_append, parse_int]
    rw [if_neg (by omega), if_neg (by omega), parse_int_digits]
    rw [if_pos hd_dig, ← List.cons_append, ← hD, hpd]
    simp [hnot]
  unfold parse_frame
  rw [hfc, if_neg (by simp [show c.isEmpty = false from by
    cases c with
    | nil => exact absurd rfl hc1
    | cons a t => rfl]), hfac, hpi]

/-- Claim C2 (amended): for every non-empty, whitespace-free command and
every byte payload whose quoted-printable encoding is at most `INT_MAX`
(2147483647) bytes long, the wire bytes produced by
`socket_write_buffer::async_write_command` run back through the inbound
frame decoder of `compiler_bridge` to exactly the original
`(command, payload)` pair, with no bytes left over.  The length bound is
forced: `qi::int_` fails on a longer decimal length field, so such a
frame does not round-trip (see the counterexample). -/
theorem c2_wire_roundtrip (cmd payload : List Nat)
    (h1 : cmd ≠ []) (h2 : ∀ b ∈ cmd, isSpaceByte b = false)
    (h3 : ∀ b ∈ payload, b < 256)
    (h4 : (qp_encode payload).length ≤ 2147483647) :
    decode_frame (async_write_command cmd payload) = some (cmd, payload, []) := by
  have hform : async_write_command cmd payload =
      cmd ++ 32 :: (nat_to_dec (qp_encode payload).length ++ 58 :: (qp_encode payload ++ [10])) := by
    rw [async_write_command]
    simp [List.append_assoc]
  rw [decode_frame, hform, parse_encoded_frame cmd (qp_encode payload) h1 h2 h4]
  simp [qp_roundtrip payload h3]

/-- Witness for `c2_wire_roundtrip` at command "StdOut" and the payload
bytes `[61, 10, 200]` (an equals sign, a LF and a non-ASCII byte, all of
which exercise the quoted-printable escape path). -/
theorem c2_wire_roundtrip_witness :
    (strBytes "StdOut" ≠ [] ∧ (∀ b ∈ strBytes "StdOut", isSpaceByte b = false) ∧
      (∀ b ∈ ([61, 10, 200] : List Nat), b < 256) ∧
      (qp_encode [61, 10, 200]).length ≤ 2147483647) ∧
    decode_frame (async_write_command (strBytes "StdOut") [61, 10, 200]) =
      some (strBytes "StdOut", [61, 10, 200], []) :=
  ⟨⟨by decide, by decide, by decide, by decide⟩,
   c2_wire_roundtrip (strBytes "StdOut") [61, 10, 200] (by decide) (by decide) (by decide)
     (by decide)⟩

theorem decode_overflow_frame (c payload : List Nat) (hc1 : c ≠ [])
    (hc2 : ∀ b ∈ c, isSpaceByte b = false)
    (hbig : 2147483647 < (qp_encode payload).length) :
    decode_frame (async_write_command c payload) = none := by
  have hform : async_write_command c payload =
      c ++ 32 :: (nat_to_dec (qp_encode payload).length ++ 58 :: (qp_encode payload ++ [10])) := by
    rw [async_write_command]
    simp [List.append_assoc]
  rw [decode_frame, hform, parse_encoded_frame_overflow c (qp_encode payload) hc1 hc2 hbig]
  rfl

/-- Counterexample to claim C2 as stated: the claim quantifies over every
binary payload, but a payload of `2^31` NUL bytes quoted-printable
encodes to `3 * 2^31` bytes, so the decimal length field of its frame
exceeds `INT_MAX` and `qi::int_` fails on it — the inbound decoder
yields no frame at all for these wire bytes, and the pair does not
round-trip. -/
theorem c2_counterexample :
    decode_frame (async_write_command (strBytes "StdOut") (List.replicate 2147483648 0)) ≠
      some (strBytes "StdOut", List.replicate 2147483648 0, []) := by
  rw [decode_overflow_frame (strBytes "StdOut") (List.replicate 2147483648 0)
    (by decide) (by decide)
    (by rw [qp_encode_replicate_zero_len]; omega)]
  intro h
  exact Option.noConfusion h

/-! ### RunSession: the protocol dispatch of compiler_bridge::operator() -/

/-- Lookup in the accumulated frame map (`received`/`sources`).  The map
is kept as an association list; only lookup and accumulation are
modelled, no claim is made about the iteration order of the underlying
`std::unordered_map`. -/
def assoc_get (m : List (List Nat × List Nat)) (k : List Nat) : List Nat :=
  match m with
  | [] => []
  | p :: rest => if p.1 = k then p.2 else assoc_get rest k

/-- `m[k] += v`: append to the entry, inserting the key when absent
(`operator[]` + `+=` semantics of `std::unordered_map`). -/
def assoc_app (m : List (List Nat × List Nat)) (k v : List Nat) :
    List (List Nat × List Nat) :=
  match m with
  | [] => [(k, v)]
  | p :: rest => if p.1 = k then (p.1, p.2 ++ v) :: rest else p :: assoc_app rest k v

/-- Session state accumulated by `compiler_bridge` (server.cc lines
742-744): the `received` frame map, the `sources` map and the filename
currently targeted by `Source` frames. -/
structure bridge_state where
  received : List (List Nat × List Nat)
  sources : List (List Nat × List Nat)
  current_filename : List Nat
deriving DecidableEq

/-- Result of `qi::parse(ite, s.end(), "compiler=" >> *qi::char_, ccname)`
(server.cc line 717): everything after a leading `compiler=`, or the
empty string when the literal fails (`ccname` stays default-initialized). -/
def parse_compiler_name (s : List Nat) : List Nat :=
  if (strBytes "compiler=").isPrefixOf s then s.drop (strBytes "compiler=").length else []

/-- Outcome of dispatching one parsed frame. -/
inductive bridge_result where
  | closed : bridge_result
  | run_writer : List Nat → bridge_state → bridge_result
  | version : bridge_state → bridge_result
  | next : bridge_state → bridge_result
deriving DecidableEq

/-- Per-frame dispatch of `compiler_bridge::operator()` (server.cc lines
712-733), applied to a parsed `(command, data)` pair with `data` still
quoted-printable encoded (the decode happens per branch, exactly as in
the source).  `closed` models `sock->close()` with no outbound frame;
`run_writer` models handing off to `program_writer` with the selected
compiler; `version` models handing off to `version_sender`; `next`
continues the read loop. -/
def compiler_bridge_step (catalogue : List (List Nat)) (st : bridge_state)
    (command data : List Nat) : bridge_result :=
  if command = strBytes "Control" ∧ data = strBytes "run" then
    if catalogue.contains (parse_compiler_name (assoc_get st.received (strBytes "Control"))) then
      bridge_result.run_writer
        (parse_compiler_name (assoc_get st.received (strBytes "Control"))) st
    else bridge_result.closed
  else if command = strBytes "Version" then bridge_result.version st
  else if command = strBytes "SourceFileName" then
    bridge_result.next { st with current_filename := qp_decode data }
  else if command = strBytes "Source" then
    bridge_result.next
      { st with sources := assoc_app st.sources st.current_filename (qp_decode data) }
  else bridge_result.next { st with received := assoc_app st.received command (qp_decode data) }

/-- Outcome of running the dispatch loop over a list of parsed frames:
frames after a terminal dispatch are returned unconsumed (the session has
transferred control and never reads them). -/
inductive bridge_outcome where
  | closed : bridge_outcome
  | run_writer : List Nat → bridge_state → List (List Nat × List Nat) → bridge_outcome
  | version : bridge_state → List (List Nat × List Nat) → bridge_outcome
  | more : bridge_state → bridge_outcome
deriving DecidableEq

/-- The read-dispatch loop of `compiler_bridge::operator()` over a
sequence of already-parsed frames. -/
def compiler_bridge_run (catalogue : List (List Nat)) :
    bridge_state → List (List Nat × List Nat) → bridge_outcome
  | st, [] => bridge_outcome.more st
  | st, (c, d) :: rest =>
    match compiler_bridge_step catalogue st c d with
    | bridge_result.next st' => compiler_bridge_run catalogue st' rest
    | bridge_result.closed => bridge_outcome.closed
    | bridge_result.run_writer n st' => bridge_outcome.run_writer n st' rest
    | bridge_result.version st' => bridge_outcome.version st' rest

theorem assoc_get_app (m : List (List Nat × List Nat)) (k v : List Nat) :
    assoc_get (assoc_app m k v) k = assoc_get m k ++ v := by
  induction m with
  | nil => simp [assoc_app, assoc_get]
  | cons p rest ih =>
    by_cases h : p.1 = k
    · simp [assoc_app, assoc_get, h]
    · simp [assoc_app, assoc_get, h, ih]

theorem bridge_step_control_accum (cat : List (List Nat)) (st : bridge_state)
    (p : List Nat) (hp : p ≠ strBytes "run") :
    compiler_bridge_step cat st (strBytes "Control") p =
      bridge_result.next
        { st with received := assoc_app st.received (strBytes "Control") (qp_decode p) } := by
  unfold compiler_bridge_step
  rw [if_neg (by simp [hp]), if_neg (by decide), if_neg (by decide), if_neg (by decide)]

theorem compiler_bridge_run_next (cat : List (List Nat)) (st : bridge_state)
    (c d : List Nat) (rest : List (List Nat × List Nat)) (st' : bridge_state)
    (h : compiler_bridge_step cat st c d = bridge_result.next st') :
    compiler_bridge_run cat st ((c, d) :: rest) = compiler_bridge_run cat st' rest := by
  rw [compiler_bridge_run, h]

/-- Claim C6 (amended): on `Control` with raw payload `run`, the dispatch
parses `compiler=<name>` from the CONCATENATION of all previously
accumulated `Control` payloads (not just the most recent one); on a
catalogue miss it closes the socket, on a hit it hands off to
`program_writer`, and the frames after the commit are never consumed. -/
theorem c6_run_commit (cat : List (List Nat)) (ps : List (List Nat))
    (hp : ∀ p ∈ ps, p ≠ strBytes "run") :
    ∀ st : bridge_state, ∀ rest : List (List Nat × List Nat),
      compiler_bridge_run cat st
          (ps.map (fun p => (strBytes "Control", p)) ++
            (strBytes "Control", strBytes "run") :: rest) =
        (if cat.contains (parse_compiler_name
            (assoc_get st.received (strBytes "Control") ++ (ps.map qp_decode).flatten)) then
          bridge_outcome.run_writer
            (parse_compiler_name
              (assoc_get st.received (strBytes "Control") ++ (ps.map qp_decode).flatten))
            (ps.foldl (fun s p =>
              { s with received := assoc_app s.received (strBytes "Control") (qp_decode p) }) st)
            rest
        else bridge_outcome.closed) := by
  induction ps with
  | nil =>
    intro st rest
    simp only [List.map_nil, List.nil_append, List.flatten_nil, List.append_nil, List.foldl_nil]
    rw [compiler_bridge_run]
    rw [show compiler_bridge_step cat st (strBytes "Control") (strBytes "run") =
        (if cat.contains (parse_compiler_name (assoc_get st.received (strBytes "Control"))) then
          bridge_result.run_writer
            (parse_compiler_name (assoc_get st.received (strBytes "Control"))) st
        else bridge_result.closed) from by
      unfold compiler_bridge_step
      rw [if_pos ⟨rfl, rfl⟩]]
    by_cases hc : cat.contains (parse_compiler_name (assoc_get st.received (strBytes "Control")))
    · rw [if_pos hc, if_pos hc]
    · rw [if_neg hc, if_neg hc]
  | cons p ps' ih =>
    intro st rest
    have hpne : p ≠ strBytes "run" := hp p (by simp)
    simp only [List.map_cons, List.cons_append]
    rw [compiler_bridge_run_next cat st _ _ _ _ (bridge_step_control_accum cat st p hpne)]
    rw [ih (fun x hx => hp x (by simp [hx]))]
    simp only [List.foldl_cons, List.map_cons, List.flatten_cons]
    rw [assoc_get_app, List.append_assoc]

/-- Witness for `c6_run_commit`: one prior `Control: compiler=gcc` payload,
a configured compiler `gcc`, and a trailing `Source` frame that the
session never consumes after the commit. -/
theorem c6_run_commit_witness :
    (∀ p ∈ [strBytes "compiler=gcc"], p ≠ strBytes "run") ∧
    compiler_bridge_run [strBytes "gcc"] ⟨[], [], []⟩
        (([strBytes "compiler=gcc"].map (fun p => (strBytes "Control", p))) ++
          (strBytes "Control", strBytes "run") :: [(strBytes "Source", strBytes "x")]) =
      bridge_outcome.run_writer (strBytes "gcc")
        ⟨[(strBytes "Control", strBytes "compiler=gcc")], [], []⟩
        [(strBytes "Source", strBytes "x")] :=
  ⟨by decide, by
    rw [c6_run_commit [strBytes "gcc"] [strBytes "compiler=gcc"] (by decide) ⟨[], [], []⟩
      [(strBytes "Source", strBytes "x")]]
    decide⟩

/-- Counterexample to claim C6 as stated: after two `Control` payloads
`compiler=gcc` then `compiler=clang`, with `clang` configured, the most
recently received `Control` payload names the configured compiler
`clang`, yet the session closes the socket: the code parses the name from
the concatenation of all `Control` payloads, yielding
`gcccompiler=clang`, which misses the catalogue. -/
theorem c6_counterexample :
    compiler_bridge_run [strBytes "clang"] ⟨[], [], []⟩
        [(strBytes "Control", strBytes "compiler=gcc"),
         (strBytes "Control", strBytes "compiler=clang"),
         (strBytes "Control", strBytes "run")] = bridge_outcome.closed ∧
    parse_compiler_name (qp_decode (strBytes "compiler=clang")) = strBytes "clang" ∧
    ([strBytes "clang"].contains (strBytes "clang") = true) := by
  refine ⟨by decide, by decide, by decide⟩

/-- Claim C10: the run-commit test of `compiler_bridge::operator()`
compares the still quoted-printable-encoded payload against the literal
`run`; a `Control` frame whose wire payload merely decodes to `run` does
not commit, and its decoded payload is appended to `received["Control"]`
like any ordinary frame. -/
theorem c10_raw_commit_test (cat : List (List Nat)) (st : bridge_state) (raw : List Nat)
    (h1 : raw ≠ strBytes "run") (h2 : qp_decode raw = strBytes "run") :
    compiler_bridge_step cat st (strBytes "Control") raw =
      bridge_result.next
        { st with received := assoc_app st.received (strBytes "Control") (strBytes "run") } := by
  rw [bridge_step_control_accum cat st raw h1, h2]

/-- Witness for `c10_raw_commit_test` at the wire payload `ru=6E`, whose
quoted-printable decoding is `run`. -/
theorem c10_raw_commit_test_witness :
    (strBytes "ru=6E" ≠ strBytes "run" ∧ qp_decode (strBytes "ru=6E") = strBytes "run") ∧
    compiler_bridge_step [] ⟨[], [], []⟩ (strBytes "Control") (strBytes "ru=6E") =
      bridge_result.next ⟨[(strBytes "Control", strBytes "run")], [], []⟩ :=
  ⟨⟨by decide, by decide⟩, by
    rw [c10_raw_commit_test [] ⟨[], [], []⟩ (strBytes "ru=6E") (by decide) (by decide)]
    decide⟩

/-! ### ProgramRunner: command construction (server.cc lines 301-352) -/

/-- Association lookup on string keys (`find` on the config maps and on
`received`; only presence and the found value matter). -/
def str_lookup {α : Type} (m : List (String × α)) (k : String) : Option α :=
  match m with
  | [] => none
  | p :: rest => if p.1 = k then some p.2 else str_lookup rest k

/-- One configured switch (`switch_trait` of load_config.hpp as used by
server.cc lines 318-330): its argv flags, its splice position
(`0` = append at the end) and whether it applies to the run argv. -/
structure switch_trait where
  flags : List String
  insert_position : Nat
  runtime : Bool
deriving DecidableEq

/-- One configured compiler (`compiler_trait` of load_config.hpp as used
by server.cc). -/
structure compiler_trait where
  name : String
  compile_command : List String
  run_command : List String
  version_command : List String
  output_file : String
  switches : List String
  jail_name : String
  displayable : Bool
deriving DecidableEq

/-- One configured jail (`jail_config` of load_config.hpp as used by
server.cc). -/
structure jail_config where
  jail_command : List String
  compile_time_limit : Nat
  program_duration : Nat
  kill_wait : Nat
  output_limit_warn : Nat
  output_limit_kill : Nat
deriving DecidableEq

/-- Embedding of `qi::parse(ite, end, as_string[+(char_-','-'\n')] % ',',
selected_switches)` (server.cc line 315): comma-separated ids, each one
or more characters other than `,` and LF; parsing stops at the first
place the grammar cannot continue.  Fuel-recursive; the fuel only needs
to exceed the input length. -/
def parse_switch_ids_aux : Nat → List Char → List String
  | 0, _ => []
  | fuel + 1, l =>
    if (l.takeWhile (fun c => c != ',' && c != '\n')).isEmpty then []
    else
      String.mk (l.takeWhile (fun c => c != ',' && c != '\n')) ::
        (match l.drop (l.takeWhile (fun c => c != ',' && c != '\n')).length with
         | ',' :: r => parse_switch_ids_aux fuel r
         | _ => [])

/-- Selected switch ids of the `CompilerOption` frame. -/
def parse_switch_ids (s : String) : List String :=
  parse_switch_ids_aux (s.toList.length + 1) s.toList

/-- Splice of one switch's flags into an argv (server.cc lines 322-328):
position `0` appends at the end, otherwise the flags are inserted at
`insert_position` (the C++ inserts at `begin() + insert_position`, which
is undefined beyond the end; the model clamps there). -/
def insert_flags (st : switch_trait) (args : List String) : List String :=
  if st.insert_position = 0 then args ++ st.flags
  else args.take st.insert_position ++ st.flags ++ args.drop st.insert_position

/-- The switch-splicing loop (server.cc lines 318-330): iterate the
compiler's switch list in order; ids that are selected and configured
splice their flags into the compile or run argv per their `runtime` bit. -/
def splice_switches (compiler_switches : List String) (selected : List String)
    (switch_catalogue : List (String × switch_trait))
    (args : List String × List String) : List String × List String :=
  compiler_switches.foldl
    (fun acc sw =>
      if selected.contains sw then
        match str_lookup switch_catalogue sw with
        | none => acc
        | some st =>
          if st.runtime then (acc.1, insert_flags st acc.2)
          else (insert_flags st acc.1, acc.2)
      else acc)
    args

/-- `boost::algorithm::replace_all(input, "\r\n", "\n")`: left-to-right,
non-overlapping replacement of CRLF by LF. -/
def replace_crlf : List Char → List Char
  | [] => []
  | '\r' :: '\n' :: rest => '\n' :: replace_crlf rest
  | c :: rest => c :: replace_crlf rest

/-- `boost::algorithm::split(s, input, is_any_of("\r\n"))`: split on every
CR or LF byte, keeping empty pieces. -/
def split_any_crlf : List Char → List (List Char)
  | [] => [[]]
  | c :: rest =>
    if c = '\r' ∨ c = '\n' then [] :: split_any_crlf rest
    else
      match split_any_crlf rest with
      | s :: ss => (c :: s) :: ss
      | [] => [[c]]

/-- `if (!s.empty() && s.back().empty()) s.pop_back()` (server.cc lines
340-342): drop one trailing empty piece. -/
def drop_trailing_empty (s : List (List Char)) : List (List Char) :=
  if s ≠ [] ∧ s.getLast? = some [] then s.dropLast else s

/-- The raw-option transform of server.cc lines 336-343: normalize CRLF
to LF, split on any of CR or LF, drop one trailing empty piece. -/
def split_raw_option (payload : String) : List String :=
  (drop_trailing_empty (split_any_crlf (replace_crlf payload.toList))).map
    (fun l => String.mk l)

/-- The raw-option transform as claim C8 states it: split on LF only
(after normalizing CRLF to LF), then drop one trailing empty piece.
This definition follows the claim's words, for comparison with
`split_raw_option` taken from the source. -/
def split_lf : List Char → List (List Char)
  | [] => [[]]
  | c :: rest =>
    if c = '\n' then [] :: split_lf rest
    else
      match split_lf rest with
      | s :: ss => (c :: s) :: ss
      | [] => [[c]]

/-- Claim-stated variant of `split_raw_option` (split on LF only). -/
def split_raw_option_claimed (payload : String) : List String :=
  (drop_trailing_empty (split_lf (replace_crlf payload.toList))).map
    (fun l => String.mk l)

/-- A runtime command descriptor (`program_runner::command_type`,
server.cc lines 155-161). -/
structure command_type where
  arguments : List String
  stdin_command : String
  stdout_command : String
  stderr_command : String
  soft_kill_wait : Nat
deriving DecidableEq

/-- The argvs after the `CompilerOption` switch splicing (server.cc lines
310-331), before the raw options. -/
def spliced_base (compiler : compiler_trait) (received : List (String × String))
    (switch_catalogue : List (String × switch_trait)) : List String × List String :=
  match str_lookup received "CompilerOption" with
  | some s =>
    splice_switches compiler.switches (parse_switch_ids s) switch_catalogue
      (compiler.compile_command, compiler.run_command)
  | none => (compiler.compile_command, compiler.run_command)

/-- The complete compile/run argv construction of
`program_runner::operator()` (server.cc lines 304-348): switch splicing,
then the raw options of `CompilerOptionRaw` (compile argv) and
`RuntimeOptionRaw` (run argv), then `jail.jail_command` prepended to
both. -/
def program_runner_build_argvs (compiler : compiler_trait)
    (received : List (String × String))
    (switch_catalogue : List (String × switch_trait)) (jail : jail_config) :
    List String × List String :=
  (jail.jail_command ++
    (match str_lookup received "CompilerOptionRaw" with
     | some s => (spliced_base compiler received switch_catalogue).1 ++ split_raw_option s
     | none => (spliced_base compiler received switch_catalogue).1),
   jail.jail_command ++
    (match str_lookup received "RuntimeOptionRaw" with
     | some s => (spliced_base compiler received switch_catalogue).2 ++ split_raw_option s
     | none => (spliced_base compiler received switch_catalogue).2))

/-- Claim-stated variant of the argv construction, identical except that
raw options are split on LF only, as claim C8 words it. -/
def program_runner_build_argvs_claimed (compiler : compiler_trait)
    (received : List (String × String))
    (switch_catalogue : List (String × switch_trait)) (jail : jail_config) :
    List String × List String :=
  (jail.jail_command ++
    (match str_lookup received "CompilerOptionRaw" with
     | some s =>
       (spliced_base compiler received switch_catalogue).1 ++ split_raw_option_claimed s
     | none => (spliced_base compiler received switch_catalogue).1),
   jail.jail_command ++
    (match str_lookup received "RuntimeOptionRaw" with
     | some s =>
       (spliced_base compiler received switch_catalogue).2 ++ split_raw_option_claimed s
     | none => (spliced_base compiler received switch_catalogue).2))

/-- The two command descriptors built by `program_runner::operator()`
(server.cc lines 349-352): the compile phase streams to
`CompilerMessageS`/`CompilerMessageE` under `compile_time_limit`, the run
phase reads `StdIn` and streams to `StdOut`/`StdErr` under
`program_duration`. -/
def program_runner_build_commands (compiler : compiler_trait)
    (received : List (String × String))
    (switch_catalogue : List (String × switch_trait)) (jail : jail_config) :
    List command_type :=
  [⟨(program_runner_build_argvs compiler received switch_catalogue jail).1, "",
    "CompilerMessageS", "CompilerMessageE", jail.compile_time_limit⟩,
   ⟨(program_runner_build_argvs compiler received switch_catalogue jail).2, "StdIn",
    "StdOut", "StdErr", jail.program_duration⟩]

/-- Claim C8 (amended): with no switches selected, a present
`CompilerOptionRaw` payload is appended, one argv element per piece, to
the compile argv and a present `RuntimeOptionRaw` payload to the run
argv, where the payload is split on any of CR or LF after normalizing
CRLF to LF (a lone CR also separates, not only LF as the claim states)
and one trailing empty piece is dropped; `jail.jail_command` is then
prepended to both argvs. -/
theorem c8_raw_options (compiler : compiler_trait) (received : List (String × String))
    (swcat : List (String × switch_trait)) (jail : jail_config) (p q : String)
    (h0 : str_lookup received "CompilerOption" = none)
    (h1 : str_lookup received "CompilerOptionRaw" = some p)
    (h2 : str_lookup received "RuntimeOptionRaw" = some q) :
    (program_runner_build_commands compiler received swcat jail).map command_type.arguments =
      [jail.jail_command ++ compiler.compile_command ++ split_raw_option p,
       jail.jail_command ++ compiler.run_command ++ split_raw_option q] := by
  unfold program_runner_build_commands program_runner_build_argvs spliced_base
  rw [h0, h1, h2]
  simp

/-- Witness for `c8_raw_options` at a concrete session: raw compile
option `-O2`, raw runtime option `x`. -/
theorem c8_raw_options_witness :
    (str_lookup [("CompilerOptionRaw", "-O2"), ("RuntimeOptionRaw", "x")] "CompilerOption"
        = none ∧
      str_lookup [("CompilerOptionRaw", "-O2"), ("RuntimeOptionRaw", "x")] "CompilerOptionRaw"
        = some "-O2" ∧
      str_lookup [("CompilerOptionRaw", "-O2"), ("RuntimeOptionRaw", "x")] "RuntimeOptionRaw"
        = some "x") ∧
    (program_runner_build_commands ⟨"gcc", ["g++"], ["./prog"], [], "prog.cc", [], "test", true⟩
        [("CompilerOptionRaw", "-O2"), ("RuntimeOptionRaw", "x")] []
        ⟨["jailcmd"], 60, 10, 5, 10, 100⟩).map command_type.arguments =
      [["jailcmd", "g++", "-O2"], ["jailcmd", "./prog", "x"]] :=
  ⟨⟨by decide, by decide, by decide⟩, by
    rw [c8_raw_options ⟨"gcc", ["g++"], ["./prog"], [], "prog.cc", [], "test", true⟩
      [("CompilerOptionRaw", "-O2"), ("RuntimeOptionRaw", "x")] []
      ⟨["jailcmd"], 60, 10, 5, 10, 100⟩ "-O2" "x" (by decide) (by decide) (by decide)]
    decide⟩

/-- Counterexample to claim C8 as stated: the payload `a\rb` (a lone CR,
no LF at all).  The code splits it into two argv elements `a` and `b`,
because `boost::algorithm::split` is applied with `is_any_of("\r\n")`;
the claim's split-on-LF-only reading would keep it as the single element
`a\rb`. -/
theorem c8_counterexample :
    (program_runner_build_argvs ⟨"gcc", ["g++"], ["./prog"], [], "prog.cc", [], "test", true⟩
        [("CompilerOptionRaw", "a\rb")] [] ⟨["jailcmd"], 60, 10, 5, 10, 100⟩).1 =
      ["jailcmd", "g++", "a", "b"] ∧
    (program_runner_build_argvs_claimed ⟨"gcc", ["g++"], ["./prog"], [], "prog.cc", [], "test", true⟩
        [("CompilerOptionRaw", "a\rb")] [] ⟨["jailcmd"], 60, 10, 5, 10, 100⟩).1 =
      ["jailcmd", "g++", "a\rb"] ∧
    (["jailcmd", "g++", "a", "b"] : List String) ≠ ["jailcmd", "g++", "a\rb"] :=
  ⟨by decide, by decide, by decide⟩

/-! ### ProgramRunner: two-phase execution, output limiter, terminal frames -/

/-- `WIFEXITED` on a raw wait status word (glibc: low 7 bits all zero). -/
def wifexited (s : Nat) : Bool := s % 128 == 0

/-- `WEXITSTATUS`: bits 8 to 15 of the status word. -/
def wexitstatus (s : Nat) : Nat := (s / 256) % 256

/-- `WIFSIGNALED` (glibc: `((signed char)(((s & 0x7f) + 1) >> 1)) > 0`,
equivalently the low 7 bits are neither 0 nor 0x7f). -/
def wifsignaled (s : Nat) : Bool := decide (0 < s % 128) && decide (s % 128 < 127)

/-- `WTERMSIG`: the low 7 bits of the status word. -/
def wtermsig (s : Nat) : Nat := s % 128

/-- `::strsignal` for the signals relevant here (libc function, external
to the repository; no claim depends on the exact strings). -/
def strsignal (n : Nat) : String :=
  if n = 9 then "Killed"
  else if n = 11 then "Segmentation fault"
  else if n = 24 then "CPU time limit exceeded"
  else if n = 25 then "File size limit exceeded"
  else "Unknown signal"

/-- Which output pipe a chunk arrived on. -/
inductive out_stream where
  | stdout : out_stream
  | stderr : out_stream
deriving DecidableEq

/-- What one spawned phase does, as the runner observes it: either
`piped_spawn` fails by throwing (modelled from the spec, §4.5
`SpawnError`; posixapi.hpp is not among the sources), or the child runs,
its output forwarders deliver the given chunks in order (stdout and
stderr interleaved at chunk granularity), and the status waiter reaps the
given raw wait status. -/
inductive phase_exec where
  | spawn_fail : phase_exec
  | ran : List (out_stream × String) → Nat → phase_exec

/-- Signal requests issued by the write limit counter. -/
inductive csignal where
  | sigkill : csignal
  | sigxfsz : csignal
deriving DecidableEq

/-- `program_runner::write_limit_counter` (server.cc lines 216-233):
`soft_limit` is the jail's `output_limit_warn`, `hard_limit` its
`output_limit_kill`, `current` a saturating `size_t` count. -/
structure write_limit_counter where
  soft_limit : Nat
  hard_limit : Nat
  current : Nat
deriving DecidableEq

/-- `std::numeric_limits<size_t>::max()`. -/
def SIZE_MAX : Nat := 2 ^ 64 - 1

/-- `write_limit_counter::add` (server.cc lines 223-230): saturating-add
the chunk length to `current`; then request SIGKILL when `current`
exceeds the hard limit, else SIGXFSZ when it exceeds the soft limit.
(The kill is a request: `status_forwarder::kill` only signals a child
that has not yet been reaped.) -/
def wlc_add (c : write_limit_counter) (len : Nat) : write_limit_counter × Option csignal :=
  (⟨c.soft_limit, c.hard_limit,
    if SIZE_MAX - len < c.current then SIZE_MAX else c.current + len⟩,
   if c.hard_limit < (if SIZE_MAX - len < c.current then SIZE_MAX else c.current + len) then
     some csignal.sigkill
   else if c.soft_limit < (if SIZE_MAX - len < c.current then SIZE_MAX else c.current + len) then
     some csignal.sigxfsz
   else none)

/-- The shared counter over one phase's chunk lengths, in delivery order
(both output forwarders call `add` after forwarding a chunk). -/
def wlc_phase (c : write_limit_counter) : List Nat → write_limit_counter × List csignal
  | [] => (c, [])
  | len :: rest =>
    ((wlc_phase (wlc_add c len).1 rest).1,
     (match (wlc_add c len).2 with
      | some k => [k]
      | none => []) ++ (wlc_phase (wlc_add c len).1 rest).2)

/-- One outbound frame: command name and payload. -/
abbrev out_frame : Type := String × String

/-- Decimal string of a natural number (`std::to_string`). -/
def nat_dec_string (n : Nat) : String := String.mk ((nat_to_dec n).map Char.ofNat)

/-- The terminal frames of `program_runner::operator()` (server.cc lines
410-425): `ExitCode` with the decimal `WEXITSTATUS` when the last status
is an exit, `Signal` with the `strsignal` name when it is a signal, then
`Control: Finish`. -/
def termination_frames (last : Nat) : List out_frame :=
  (if wifexited last then [("ExitCode", nat_dec_string (wexitstatus last))] else []) ++
    (if wifsignaled last then [("Signal", strsignal (wtermsig last))] else []) ++
      [("Control", "Finish")]

/-- Frames emitted by one phase's output forwarders: each chunk becomes a
frame named by the phase's stdout/stderr command (server.cc lines
263-267). -/
def phase_frames (c : command_type) (chunks : List (out_stream × String)) : List out_frame :=
  chunks.map (fun ch =>
    (match ch.1 with
     | out_stream.stdout => c.stdout_command
     | out_stream.stderr => c.stderr_command, ch.2))

/-- Everything a run of `program_runner::operator()` produces in the
model: the outbound frames after `Control: Start`, the limiter's signal
requests tagged with their phase index, whether a spawn failure aborted
the run (the exception escapes the coroutine), the final `laststatus`,
and the final limiter state. -/
structure run_result where
  frames : List out_frame
  kill_requests : List (Nat × csignal)
  aborted : Bool
  laststatus : Nat
  limiter : write_limit_counter
deriving DecidableEq

/-- The phase loop of `program_runner::operator()` (server.cc lines
361-409): run each command in turn; a phase's chunks are forwarded and
counted; the loop continues only when the child exited with status 0
(`if (!WIFEXITED(laststatus) || (WEXITSTATUS(laststatus) != 0)) break`),
and after the loop the terminal frames for `laststatus` are emitted.  A
spawn failure aborts with no further frames (nothing in the source
catches it). -/
def run_phases (execs : Nat → phase_exec) :
    Nat → List command_type → Nat → write_limit_counter → run_result
  | _, [], last, lim => ⟨termination_frames last, [], false, last, lim⟩
  | idx, c :: cs, last, lim =>
    match execs idx with
    | phase_exec.spawn_fail => ⟨[], [], true, last, lim⟩
    | phase_exec.ran chunks st =>
      if wifexited st && wexitstatus st == 0 then
        ⟨phase_frames c chunks ++
            (run_phases execs (idx + 1) cs st
              (wlc_phase lim (chunks.map (fun ch => ch.2.length))).1).frames,
         ((wlc_phase lim (chunks.map (fun ch => ch.2.length))).2.map
              (fun k => (idx, k))) ++
            (run_phases execs (idx + 1) cs st
              (wlc_phase lim (chunks.map (fun ch => ch.2.length))).1).kill_requests,
         (run_phases execs (idx + 1) cs st
            (wlc_phase lim (chunks.map (fun ch => ch.2.length))).1).aborted,
         (run_phases execs (idx + 1) cs st
            (wlc_phase lim (chunks.map (fun ch => ch.2.length))).1).laststatus,
         (run_phases execs (idx + 1) cs st
            (wlc_phase lim (chunks.map (fun ch => ch.2.length))).1).limiter⟩
      else
        ⟨phase_frames c chunks ++ termination_frames st,
         (wlc_phase lim (chunks.map (fun ch => ch.2.length))).2.map (fun k => (idx, k)),
         false, st,
         (wlc_phase lim (chunks.map (fun ch => ch.2.length))).1⟩

/-- A full run of `program_runner::operator()`: `Control: Start` first
(server.cc line 358), then the phase loop with `laststatus` initially 0
and one write limit counter, created once per runner from the jail's
warn/kill limits (server.cc line 290) and shared by all phases. -/
def program_runner_run (cmds : List command_type) (jail : jail_config)
    (execs : Nat → phase_exec) : run_result :=
  ⟨("Control", "Start") ::
      (run_phases execs 0 cmds 0 ⟨jail.output_limit_warn, jail.output_limit_kill, 0⟩).frames,
   (run_phases execs 0 cmds 0 ⟨jail.output_limit_warn, jail.output_limit_kill, 0⟩).kill_requests,
   (run_phases execs 0 cmds 0 ⟨jail.output_limit_warn, jail.output_limit_kill, 0⟩).aborted,
   (run_phases execs 0 cmds 0 ⟨jail.output_limit_warn, jail.output_limit_kill, 0⟩).laststatus,
   (run_phases execs 0 cmds 0 ⟨jail.output_limit_warn, jail.output_limit_kill, 0⟩).limiter⟩

/-- Checker for the claimed frame pattern
`(CompilerMessageS|CompilerMessageE)* ((StdOut|StdErr)*)?
(ExitCode|Signal) Control:Finish` (state 0 before any run-phase chunk,
state 1 after one). -/
def regex_finish : List out_frame → Bool
  | [(c, p)] => c == "Control" && p == "Finish"
  | _ => false

def regex_loop : Nat → List out_frame → Bool
  | _, [] => false
  | st, (c, _) :: rest =>
    if c == "CompilerMessageS" || c == "CompilerMessageE" then
      st == 0 && regex_loop 0 rest
    else if c == "StdOut" || c == "StdErr" then
      (st == 0 || st == 1) && regex_loop 1 rest
    else if c == "ExitCode" || c == "Signal" then
      (st == 0 || st == 1) && regex_finish rest
    else false

/-- Checker for the full claimed pattern: `Control:Start` first, then
`regex_loop` from state 0. -/
def regex_accepts (l : List out_frame) : Bool :=
  match l with
  | [] => false
  | f :: rest => f == (("Control", "Start") : out_frame) && regex_loop 0 rest

theorem regex_loop_cms (args : List String) (k : Nat) (chunks : List (out_stream × String))
    (rest : List out_frame) :
    regex_loop 0
        (phase_frames ⟨args, "", "CompilerMessageS", "CompilerMessageE", k⟩ chunks ++ rest) =
      regex_loop 0 rest := by
  induction chunks with
  | nil => rfl
  | cons ch t ih =>
    obtain ⟨s, payload⟩ := ch
    cases s with
    | stdout =>
      show regex_loop 0 ((("CompilerMessageS" : String), payload) ::
        (phase_frames ⟨args, "", "CompilerMessageS", "CompilerMessageE", k⟩ t ++ rest)) =
          regex_loop 0 rest
      rw [regex_loop, if_pos (by decide)]
      simp [ih]
    | stderr =>
      show regex_loop 0 ((("CompilerMessageE" : String), payload) ::
        (phase_frames ⟨args, "", "CompilerMessageS", "CompilerMessageE", k⟩ t ++ rest)) =
          regex_loop 0 rest
      rw [regex_loop, if_pos (by decide)]
      simp [ih]

theorem regex_loop_std (args : List String) (k : Nat) (chunks : List (out_stream × String))
    (rest : List out_frame) (h0 : regex_loop 0 rest = true) (h1 : regex_loop 1 rest = true) :
    regex_loop 0 (phase_frames ⟨args, "StdIn", "StdOut", "StdErr", k⟩ chunks ++ rest) = true ∧
    regex_loop 1 (phase_frames ⟨args, "StdIn", "StdOut", "StdErr", k⟩ chunks ++ rest) = true := by
  induction chunks with
  | nil => exact ⟨h0, h1⟩
  | cons ch t ih =>
    obtain ⟨s, payload⟩ := ch
    cases s with
    | stdout =>
      constructor
      · show regex_loop 0 ((("StdOut" : String), payload) ::
          (phase_frames ⟨args, "StdIn", "StdOut", "StdErr", k⟩ t ++ rest)) = true
        rw [regex_loop, if_neg (by decide), if_pos (by decide)]
        simp [ih.2]
      · show regex_loop 1 ((("StdOut" : String), payload) ::
          (phase_frames ⟨args, "StdIn", "StdOut", "StdErr", k⟩ t ++ rest)) = true
        rw [regex_loop, if_neg (by decide), if_pos (by decide)]
        simp [ih.2]
    | stderr =>
      constructor
      · show regex_loop 0 ((("StdErr" : String), payload) ::
          (phase_frames ⟨args, "StdIn", "StdOut", "StdErr", k⟩ t ++ rest)) = true
        rw [regex_loop, if_neg (by decide), if_pos (by decide)]
        simp [ih.2]
      · show regex_loop 1 ((("StdErr" : String), payload) ::
          (phase_frames ⟨args, "StdIn", "StdOut", "StdErr", k⟩ t ++ rest)) = true
        rw [regex_loop, if_neg (by decide), if_pos (by decide)]
        simp [ih.2]

theorem regex_loop_term (last : Nat) (h : (wifexited last || wifsignaled last) = true) :
    regex_loop 0 (termination_frames last) = true ∧
    regex_loop 1 (termination_frames last) = true := by
  by_cases he : wifexited last = true
  · have h0 : last % 128 = 0 := by simpa [wifexited] using he
    have hs : wifsignaled last = false := by simp [wifsignaled, h0]
    constructor <;> simp [termination_frames, he, hs, regex_loop, regex_finish]
  · have he' : wifexited last = false := by simpa using he
    have hs : wifsignaled last = true := by simpa [he'] using h
    constructor <;> simp [termination_frames, he', hs, regex_loop, regex_finish]

theorem runner_two_phase_pattern (a1 a2 : List String) (k1 k2 : Nat) (jail : jail_config)
    (execs : Nat → phase_exec)
    (hab : (program_runner_run
        [⟨a1, "", "CompilerMessageS", "CompilerMessageE", k1⟩,
         ⟨a2, "StdIn", "StdOut", "StdErr", k2⟩] jail execs).aborted = false)
    (hst : ∀ i chunks st, execs i = phase_exec.ran chunks st →
        (wifexited st || wifsignaled st) = true) :
    regex_accepts (program_runner_run
        [⟨a1, "", "CompilerMessageS", "CompilerMessageE", k1⟩,
         ⟨a2, "StdIn", "StdOut", "StdErr", k2⟩] jail execs).frames = true ∧
    (wifexited (program_runner_run
        [⟨a1, "", "CompilerMessageS", "CompilerMessageE", k1⟩,
         ⟨a2, "StdIn", "StdOut", "StdErr", k2⟩] jail execs).laststatus = true →
      ("ExitCode", nat_dec_string (wexitstatus (program_runner_run
        [⟨a1, "", "CompilerMessageS", "CompilerMessageE", k1⟩,
         ⟨a2, "StdIn", "StdOut", "StdErr", k2⟩] jail execs).laststatus)) ∈
        (program_runner_run
        [⟨a1, "", "CompilerMessageS", "CompilerMessageE", k1⟩,
         ⟨a2, "StdIn", "StdOut", "StdErr", k2⟩] jail execs).frames) ∧
    (wifsignaled (program_runner_run
        [⟨a1, "", "CompilerMessageS", "CompilerMessageE", k1⟩,
         ⟨a2, "StdIn", "StdOut", "StdErr", k2⟩] jail execs).laststatus = true →
      ("Signal", strsignal (wtermsig (program_runner_run
        [⟨a1, "", "CompilerMessageS", "CompilerMessageE", k1⟩,
         ⟨a2, "StdIn", "StdOut", "StdErr", k2⟩] jail execs).laststatus)) ∈
        (program_runner_run
        [⟨a1, "", "CompilerMessageS", "CompilerMessageE", k1⟩,
         ⟨a2, "StdIn", "StdOut", "StdErr", k2⟩] jail execs).frames) := by
  cases E0 : execs 0 with
  | spawn_fail => simp [program_runner_run, run_phases, E0] at hab
  | ran chunks1 st1 =>
    by_cases hc1 : (wifexited st1 && wexitstatus st1 == 0) = true
    · cases E1 : execs 1 with
      | spawn_fail => simp [program_runner_run, run_phases, E0, E1, hc1] at hab
      | ran chunks2 st2 =>
        have hterm := regex_loop_term st2 (hst 1 chunks2 st2 E1)
        have hstd := regex_loop_std a2 k2 chunks2 (termination_frames st2) hterm.1 hterm.2
        by_cases hc2 : (wifexited st2 && wexitstatus st2 == 0) = true
        · simp only [program_runner_run, run_phases, E0, E1, hc1, hc2, if_true]
          refine ⟨?_, ?_, ?_⟩
          · simp only [regex_accepts]
            rw [regex_loop_cms]
            simp [hstd.1]
          · intro he
            simp [termination_frames, he] at *
          · intro hsg
            simp [termination_frames, hsg] at *
        · simp only [program_runner_run, run_phases, E0, E1, hc1, hc2, if_true, if_false,
            Bool.false_eq_true]
          refine ⟨?_, ?_, ?_⟩
          · simp only [regex_accepts]
            rw [regex_loop_cms]
            simp [hstd.1]
          · intro he
            simp [termination_frames, he] at *
          · intro hsg
            simp [termination_frames, hsg] at *
    · have hterm := regex_loop_term st1 (hst 0 chunks1 st1 E0)
      simp only [program_runner_run, run_phases, E0, hc1, Bool.false_eq_true, if_false]
      refine ⟨?_, ?_, ?_⟩
      · simp only [regex_accepts]
        rw [regex_loop_cms]
        simp [hterm.1]
      · intro he
        simp [termination_frames, he] at *
      · intro hsg
        simp [termination_frames, hsg] at *

/-- A full session run past the commit point: the runner executes the two
commands built by its own command construction. -/
def wandbox_session_run (compiler : compiler_trait) (received : List (String × String))
    (swcat : List (String × switch_trait)) (jail : jail_config)
    (execs : Nat → phase_exec) : run_result :=
  program_runner_run (program_runner_build_commands compiler received swcat jail) jail execs

/-- Claim C1 (amended): for every session that reaches the run commit
point, in which every spawned phase starts successfully (`aborted =
false`; a spawn failure escapes as an exception and truncates the
sequence) and whose reaped statuses are normal child statuses (exited or
signaled, as `waitpid` without `WUNTRACED` delivers), the emitted frame
sequence matches `Control:Start (CompilerMessageS|CompilerMessageE)*
((StdOut|StdErr)*)? (ExitCode|Signal) Control:Finish`; the terminal frame
carries the decimal `WEXITSTATUS` when the last child exited, and the
signal name when it was signaled. -/
theorem c1_frame_sequence (compiler : compiler_trait) (received : List (String × String))
    (swcat : List (String × switch_trait)) (jail : jail_config) (execs : Nat → phase_exec)
    (hab : (wandbox_session_run compiler received swcat jail execs).aborted = false)
    (hst : ∀ i chunks st, execs i = phase_exec.ran chunks st →
        (wifexited st || wifsignaled st) = true) :
    regex_accepts (wandbox_session_run compiler received swcat jail execs).frames = true ∧
    (wifexited (wandbox_session_run compiler received swcat jail execs).laststatus = true →
      ("ExitCode", nat_dec_string (wexitstatus
          (wandbox_session_run compiler received swcat jail execs).laststatus)) ∈
        (wandbox_session_run compiler received swcat jail execs).frames) ∧
    (wifsignaled (wandbox_session_run compiler received swcat jail execs).laststatus = true →
      ("Signal", strsignal (wtermsig
          (wandbox_session_run compiler received swcat jail execs).laststatus)) ∈
        (wandbox_session_run compiler received swcat jail execs).frames) :=
  runner_two_phase_pattern
    (program_runner_build_argvs compiler received swcat jail).1
    (program_runner_build_argvs compiler received swcat jail).2
    jail.compile_time_limit jail.program_duration jail execs hab hst

/-- Witness for `c1_frame_sequence`: a session whose two phases both run
and exit 0 with no output; the emitted sequence is
`Control:Start ExitCode:0 Control:Finish`. -/
theorem c1_frame_sequence_witness :
    ((wandbox_session_run ⟨"gcc", ["g++"], ["./prog"], [], "prog.cc", [], "test", true⟩ [] []
        ⟨["jailcmd"], 60, 10, 5, 10, 100⟩ (fun _ => phase_exec.ran [] 0)).aborted = false) ∧
    regex_accepts (wandbox_session_run ⟨"gcc", ["g++"], ["./prog"], [], "prog.cc", [], "test", true⟩
        [] [] ⟨["jailcmd"], 60, 10, 5, 10, 100⟩ (fun _ => phase_exec.ran [] 0)).frames = true :=
  ⟨by decide,
   (c1_frame_sequence ⟨"gcc", ["g++"], ["./prog"], [], "prog.cc", [], "test", true⟩ [] []
     ⟨["jailcmd"], 60, 10, 5, 10, 100⟩ (fun _ => phase_exec.ran [] 0) (by decide)
     (by intro i chunks st h; cases h; decide)).1⟩

/-- Counterexample to claim C1 as stated: a session that reaches the run
commit point but whose first spawn fails emits `Control: Start` and
nothing else — the exception from `piped_spawn` escapes
`program_runner::operator()` uncaught — so its frame sequence does not
match the claimed pattern. -/
theorem c1_counterexample :
    (wandbox_session_run ⟨"gcc", ["g++"], ["./prog"], [], "prog.cc", [], "test", true⟩ [] []
        ⟨["jailcmd"], 60, 10, 5, 10, 100⟩ (fun _ => phase_exec.spawn_fail)).frames =
      [("Control", "Start")] ∧
    regex_accepts (wandbox_session_run ⟨"gcc", ["g++"], ["./prog"], [], "prog.cc", [], "test", true⟩
        [] [] ⟨["jailcmd"], 60, 10, 5, 10, 100⟩ (fun _ => phase_exec.spawn_fail)).frames = false :=
  ⟨by decide, by decide⟩

theorem phase_frames_mem (c : command_type) (chunks : List (out_stream × String))
    (f : out_frame) (hf : f ∈ phase_frames c chunks) :
    f.1 = c.stdout_command ∨ f.1 = c.stderr_command := by
  simp only [phase_frames, List.mem_map] at hf
  obtain ⟨⟨s, p⟩, _, rfl⟩ := hf
  cases s with
  | stdout => left; rfl
  | stderr => right; rfl

/-- Claim C7 (amended): when a phase's child cannot be started, the
exception from `piped_spawn` escapes `program_runner::operator()`
(nothing in the source catches it): the session ends without ever
emitting a `Signal` frame, an `ExitCode` frame, or `Control: Finish` —
no `Signal: spawn-failed` marker is synthesized. -/
theorem c7_spawn_failure (compiler : compiler_trait) (received : List (String × String))
    (swcat : List (String × switch_trait)) (jail : jail_config) (execs : Nat → phase_exec)
    (hab : (wandbox_session_run compiler received swcat jail execs).aborted = true) :
    (∀ f ∈ (wandbox_session_run compiler received swcat jail execs).frames,
      f.1 ≠ "Signal" ∧ f.1 ≠ "ExitCode") ∧
    ("Control", "Finish") ∉ (wandbox_session_run compiler received swcat jail execs).frames := by
  cases E0 : execs 0 with
  | spawn_fail =>
    constructor
    · intro f hf
      simp [wandbox_session_run, program_runner_run, run_phases, E0] at hf
      subst hf
      exact ⟨by decide, by decide⟩
    · intro hmem
      simp [wandbox_session_run, program_runner_run, run_phases, E0] at hmem
  | ran chunks1 st1 =>
    by_cases hc1 : (wifexited st1 && wexitstatus st1 == 0) = true
    · cases E1 : execs 1 with
      | spawn_fail =>
        constructor
        · intro f hf
          simp only [wandbox_session_run, program_runner_run, run_phases,
            program_runner_build_commands, E0, E1, hc1, if_true, List.append_nil,
            List.mem_cons, List.mem_append] at hf
          rcases hf with hf | hf
          · subst hf
            exact ⟨by decide, by decide⟩
          · rcases phase_frames_mem _ chunks1 f hf with h | h
            · rw [h]
              exact ⟨show ("CompilerMessageS" : String) ≠ "Signal" from by decide,
                show ("CompilerMessageS" : String) ≠ "ExitCode" from by decide⟩
            · rw [h]
              exact ⟨show ("CompilerMessageE" : String) ≠ "Signal" from by decide,
                show ("CompilerMessageE" : String) ≠ "ExitCode" from by decide⟩
        · intro hmem
          simp only [wandbox_session_run, program_runner_run, run_phases,
            program_runner_build_commands, E0, E1, hc1, if_true, List.append_nil,
            List.mem_cons, List.mem_append] at hmem
          rcases hmem with h | h
          · simp at h
          · rcases phase_frames_mem _ chunks1 _ h with h2 | h2 <;> simp at h2
      | ran chunks2 st2 =>
        exfalso
        by_cases hc2 : (wifexited st2 && wexitstatus st2 == 0) = true
        · simp [wandbox_session_run, program_runner_run, run_phases, E0, E1, hc1, hc2] at hab
        · simp [wandbox_session_run, program_runner_run, run_phases, E0, E1, hc1, hc2] at hab
    · exfalso
      simp [wandbox_session_run, program_runner_run, run_phases, E0, hc1] at hab

/-- Witness for `c7_spawn_failure`: phase 1 runs and exits 0, phase 2
fails to spawn; no `Control: Finish` is emitted. -/
theorem c7_spawn_failure_witness :
    ((wandbox_session_run ⟨"gcc", ["g++"], ["./prog"], [], "prog.cc", [], "test", true⟩ [] []
        ⟨["jailcmd"], 60, 10, 5, 10, 100⟩
        (fun i => if i = 0 then phase_exec.ran [(out_stream.stdout, "x")] 0
          else phase_exec.spawn_fail)).aborted = true) ∧
    ("Control", "Finish") ∉ (wandbox_session_run
        ⟨"gcc", ["g++"], ["./prog"], [], "prog.cc", [], "test", true⟩ [] []
        ⟨["jailcmd"], 60, 10, 5, 10, 100⟩
        (fun i => if i = 0 then phase_exec.ran [(out_stream.stdout, "x")] 0
          else phase_exec.spawn_fail)).frames :=
  ⟨by decide,
   (c7_spawn_failure ⟨"gcc", ["g++"], ["./prog"], [], "prog.cc", [], "test", true⟩ [] []
     ⟨["jailcmd"], 60, 10, 5, 10, 100⟩
     (fun i => if i = 0 then phase_exec.ran [(out_stream.stdout, "x")] 0
       else phase_exec.spawn_fail) (by decide)).2⟩

/-- Counterexample to claim C7 as stated: when the first spawn fails the
session emits only `Control: Start` — neither a `Signal: spawn-failed`
frame (nor any `Signal` frame) nor the claimed `Control: Finish`. -/
theorem c7_counterexample :
    (wandbox_session_run ⟨"gcc", ["g++"], ["./prog"], [], "prog.cc", [], "test", true⟩ [] []
        ⟨["jailcmd"], 60, 10, 5, 10, 100⟩ (fun _ => phase_exec.spawn_fail)).frames =
      [("Control", "Start")] ∧
    ("Signal", "spawn-failed") ∉ (wandbox_session_run
        ⟨"gcc", ["g++"], ["./prog"], [], "prog.cc", [], "test", true⟩ [] []
        ⟨["jailcmd"], 60, 10, 5, 10, 100⟩ (fun _ => phase_exec.spawn_fail)).frames ∧
    ("Control", "Finish") ∉ (wandbox_session_run
        ⟨"gcc", ["g++"], ["./prog"], [], "prog.cc", [], "test", true⟩ [] []
        ⟨["jailcmd"], 60, 10, 5, 10, 100⟩ (fun _ => phase_exec.spawn_fail)).frames :=
  ⟨by decide, by decide, by decide⟩

/-- Saturating running count over a list of chunk lengths (the
mathematical form of the limiter's `current`). -/
def sat_sum (cur : Nat) (lens : List Nat) : Nat :=
  lens.foldl (fun c l => min SIZE_MAX (c + l)) cur

/-- Stated from the claim's words (amended): one running count over a
sequence of phase-tagged chunk lengths; each length is saturating-added,
and after each add the currently attached child is requested SIGKILL
when the count exceeds the kill limit, else SIGXFSZ when it exceeds the
warn limit. -/
def limit_trace (warn kill : Nat) : Nat → List (Nat × Nat) → List (Nat × csignal)
  | _, [] => []
  | cur, (i, len) :: rest =>
    (if kill < min SIZE_MAX (cur + len) then [(i, csignal.sigkill)]
     else if warn < min SIZE_MAX (cur + len) then [(i, csignal.sigxfsz)]
     else []) ++ limit_trace warn kill (min SIZE_MAX (cur + len)) rest

/-- The chunk lengths of the phases the runner actually executes, tagged
with their phase index (phase `i + 1` runs only when phase `i` exited
with status 0; a spawn failure cuts the run short). -/
def runner_chunk_lens (execs : Nat → phase_exec) : Nat → List command_type → List (Nat × Nat)
  | _, [] => []
  | idx, _ :: cs =>
    match execs idx with
    | phase_exec.spawn_fail => []
    | phase_exec.ran chunks st =>
      chunks.map (fun ch => (idx, ch.2.length)) ++
        (if wifexited st && wexitstatus st == 0 then runner_chunk_lens execs (idx + 1) cs
         else [])

/-- Stated from claim C5's words as given: a FRESH count per child, so
that each phase's stdout+stderr is aggregated in isolation.  For
comparison with the code model, which shares one counter across the
session's phases. -/
def per_child_kill_requests (warn kill : Nat) (execs : Nat → phase_exec) :
    Nat → List command_type → List (Nat × csignal)
  | _, [] => []
  | idx, _ :: cs =>
    match execs idx with
    | phase_exec.spawn_fail => []
    | phase_exec.ran chunks st =>
      limit_trace warn kill 0 (chunks.map (fun ch => (idx, ch.2.length))) ++
        (if wifexited st && wexitstatus st == 0 then
          per_child_kill_requests warn kill execs (idx + 1) cs
         else [])

theorem sat_sum_le (lens : List Nat) :
    ∀ cur, cur ≤ SIZE_MAX → sat_sum cur lens ≤ SIZE_MAX := by
  induction lens with
  | nil => intro cur hc; exact hc
  | cons len t ih =>
    intro cur _
    have : min SIZE_MAX (cur + len) ≤ SIZE_MAX := by omega
    exact ih _ this

theorem wlc_add_min (w k cur len : Nat) (_hc : cur ≤ SIZE_MAX) (hl : len ≤ SIZE_MAX) :
    wlc_add ⟨w, k, cur⟩ len =
      (⟨w, k, min SIZE_MAX (cur + len)⟩,
       if k < min SIZE_MAX (cur + len) then some csignal.sigkill
       else if w < min SIZE_MAX (cur + len) then some csignal.sigxfsz else none) := by
  have hm : (if SIZE_MAX - len < cur then SIZE_MAX else cur + len) = min SIZE_MAX (cur + len) := by
    by_cases h : SIZE_MAX - len < cur
    · rw [if_pos h]
      omega
    · rw [if_neg h]
      omega
  simp only [wlc_add]
  rw [hm]

theorem wlc_phase_state (w k : Nat) (lens : List Nat) :
    ∀ cur, cur ≤ SIZE_MAX → (∀ l ∈ lens, l ≤ SIZE_MAX) →
      (wlc_phase ⟨w, k, cur⟩ lens).1 = ⟨w, k, sat_sum cur lens⟩ := by
  induction lens with
  | nil => intro cur _ _; rfl
  | cons len t ih =>
    intro cur hc hl
    have hlen : len ≤ SIZE_MAX := hl len (by simp)
    have h1 : (wlc_add ⟨w, k, cur⟩ len).1 = ⟨w, k, min SIZE_MAX (cur + len)⟩ := by
      rw [wlc_add_min w k cur len hc hlen]
    rw [wlc_phase, h1, ih _ (by omega) (fun l h2 => hl l (by simp [h2]))]
    rfl

theorem wlc_phase_sigs (w k : Nat) (lens : List Nat) :
    ∀ cur, cur ≤ SIZE_MAX → (∀ l ∈ lens, l ≤ SIZE_MAX) →
      ∀ (i : Nat) (rest : List (Nat × Nat)),
        (wlc_phase ⟨w, k, cur⟩ lens).2.map (fun s => (i, s)) ++
            limit_trace w k (sat_sum cur lens) rest =
          limit_trace w k cur (lens.map (fun l => (i, l)) ++ rest) := by
  induction lens with
  | nil => intro cur _ _ i rest; rfl
  | cons len t ih =>
    intro cur hc hl i rest
    have hlen : len ≤ SIZE_MAX := hl len (by simp)
    have hadd := wlc_add_min w k cur len hc hlen
    have h1 : (wlc_add ⟨w, k, cur⟩ len).1 = ⟨w, k, min SIZE_MAX (cur + len)⟩ := by rw [hadd]
    have h2 : (wlc_add ⟨w, k, cur⟩ len).2 =
        (if k < min SIZE_MAX (cur + len) then some csignal.sigkill
         else if w < min SIZE_MAX (cur + len) then some csignal.sigxfsz else none) := by
      rw [hadd]
    have hrec := ih (min SIZE_MAX (cur + len)) (by omega)
      (fun l hm => hl l (by simp [hm])) i rest
    have hss : sat_sum cur (len :: t) = sat_sum (min SIZE_MAX (cur + len)) t := rfl
    rw [wlc_phase, h1, h2, hss]
    rw [List.map_cons, List.cons_append, limit_trace]
    rw [List.map_append, List.append_assoc, hrec]
    by_cases hk : k < min SIZE_MAX (cur + len)
    · rw [if_pos hk, if_pos hk]
      rfl
    · rw [if_neg hk, if_neg hk]
      by_cases hw : w < min SIZE_MAX (cur + len)
      · rw [if_pos hw, if_pos hw]
        rfl
      · rw [if_neg hw, if_neg hw]
        rfl

theorem run_phases_kills (w k : Nat) (execs : Nat → phase_exec)
    (hlen : ∀ i chunks st, execs i = phase_exec.ran chunks st →
      ∀ ch ∈ chunks, ch.2.length ≤ SIZE_MAX) :
    ∀ (cmds : List command_type) (idx last cur : Nat), cur ≤ SIZE_MAX →
      (run_phases execs idx cmds last ⟨w, k, cur⟩).kill_requests =
        limit_trace w k cur (runner_chunk_lens execs idx cmds) := by
  intro cmds
  induction cmds with
  | nil => intro idx last cur _; rfl
  | cons c cs ih =>
    intro idx last cur hc
    cases E : execs idx with
    | spawn_fail => simp [run_phases, runner_chunk_lens, E, limit_trace]
    | ran chunks st =>
      have hl : ∀ l ∈ chunks.map (fun ch => ch.2.length), l ≤ SIZE_MAX := by
        intro l hml
        simp only [List.mem_map] at hml
        obtain ⟨ch, hch, rfl⟩ := hml
        exact hlen idx chunks st E ch hch
      have hstate := wlc_phase_state w k (chunks.map (fun ch => ch.2.length)) cur hc hl
      have hsat := sat_sum_le (chunks.map (fun ch => ch.2.length)) cur hc
      have htag : chunks.map (fun ch => (idx, ch.2.length)) =
          (chunks.map (fun ch => ch.2.length)).map (fun l => (idx, l)) := by
        simp [List.map_map]
      by_cases hcont : (wifexited st && wexitstatus st == 0) = true
      · simp only [run_phases, runner_chunk_lens, E, hcont, if_true]
        rw [hstate, ih (idx + 1) st (sat_sum cur (chunks.map (fun ch => ch.2.length))) hsat,
          htag]
        exact wlc_phase_sigs w k (chunks.map (fun ch => ch.2.length)) cur hc hl idx
          (runner_chunk_lens execs (idx + 1) cs)
      · simp only [run_phases, runner_chunk_lens, E, hcont, Bool.false_eq_true, if_false,
          List.append_nil]
        have := wlc_phase_sigs w k (chunks.map (fun ch => ch.2.length)) cur hc hl idx []
        rw [htag]
        simpa [limit_trace] using this

/-- Claim C5 (amended): the write limit counter is created once per run
(server.cc line 290) and shared across BOTH phases of the session: the
runner's kill requests are exactly those of a single saturating running
count over the chunk lengths of all executed phases' stdout+stderr, with
SIGKILL requested when the count exceeds `output_limit_kill`, else
SIGXFSZ when it exceeds `output_limit_warn`, addressed to the phase
whose chunk crossed the threshold. -/
theorem c5_limit_aggregation (cmds : List command_type) (jail : jail_config)
    (execs : Nat → phase_exec)
    (hlen : ∀ i chunks st, execs i = phase_exec.ran chunks st →
      ∀ ch ∈ chunks, ch.2.length ≤ SIZE_MAX) :
    (program_runner_run cmds jail execs).kill_requests =
      limit_trace jail.output_limit_warn jail.output_limit_kill 0
        (runner_chunk_lens execs 0 cmds) := by
  have := run_phases_kills jail.output_limit_warn jail.output_limit_kill execs hlen cmds 0 0 0
    (Nat.zero_le _)
  simpa [program_runner_run] using this

/-- Witness for `c5_limit_aggregation`: both phases emit one 8-byte
stdout chunk under warn limit 10 and kill limit 100; the shared count
reaches 16 during phase 1 (the run child), which is therefore requested
SIGXFSZ. -/
theorem c5_limit_aggregation_witness :
    (∀ i chunks st,
        (fun _ => phase_exec.ran [(out_stream.stdout, "12345678")] 0 : Nat → phase_exec) i =
          phase_exec.ran chunks st → ∀ ch ∈ chunks, ch.2.length ≤ SIZE_MAX) ∧
    (program_runner_run
        (program_runner_build_commands ⟨"gcc", ["g++"], ["./prog"], [], "prog.cc", [], "test", true⟩
          [] [] ⟨["jailcmd"], 60, 10, 5, 10, 100⟩)
        ⟨["jailcmd"], 60, 10, 5, 10, 100⟩
        (fun _ => phase_exec.ran [(out_stream.stdout, "12345678")] 0)).kill_requests =
      [(1, csignal.sigxfsz)] :=
  ⟨by intro i chunks st h; cases h; intro ch hch; simp at hch; subst hch; decide,
   by
    rw [c5_limit_aggregation
      (program_runner_build_commands ⟨"gcc", ["g++"], ["./prog"], [], "prog.cc", [], "test", true⟩
        [] [] ⟨["jailcmd"], 60, 10, 5, 10, 100⟩)
      ⟨["jailcmd"], 60, 10, 5, 10, 100⟩
      (fun _ => phase_exec.ran [(out_stream.stdout, "12345678")] 0)
      (by intro i chunks st h; cases h; intro ch hch; simp at hch; subst hch; decide)]
    decide⟩

/-- Counterexample to claim C5 as stated: with `output_limit_warn = 10`
and `output_limit_kill = 100`, each phase outputs 8 bytes.  Neither
child's own stdout+stderr exceeds the warn limit, so a per-child counter
(the claim's "aggregates across that one child's stdout+stderr only")
requests nothing; the code's counter persists across both phases,
reaches 16 during the run phase and requests SIGXFSZ for the run child. -/
theorem c5_counterexample :
    (program_runner_run
        (program_runner_build_commands ⟨"gcc", ["g++"], ["./prog"], [], "prog.cc", [], "test", true⟩
          [] [] ⟨["jailcmd"], 60, 10, 5, 10, 100⟩)
        ⟨["jailcmd"], 60, 10, 5, 10, 100⟩
        (fun _ => phase_exec.ran [(out_stream.stdout, "12345678")] 0)).kill_requests =
      [(1, csignal.sigxfsz)] ∧
    per_child_kill_requests 10 100 (fun _ => phase_exec.ran [(out_stream.stdout, "12345678")] 0) 0
        (program_runner_build_commands ⟨"gcc", ["g++"], ["./prog"], [], "prog.cc", [], "test", true⟩
          [] [] ⟨["jailcmd"], 60, 10, 5, 10, 100⟩) = [] ∧
    ([(1, csignal.sigxfsz)] : List (Nat × csignal)) ≠ [] :=
  ⟨by decide, by decide, by decide⟩

/-! ### AdmissionSem: counting_semaphore and the listener's admission -/

/-- Initial count the listener passes to the semaphore's eventfd:
`config.system.max_connections - 1` (server.cc line 769). -/
def listener_semaphore_initial (max_connections : Nat) : Nat := max_connections - 1

/-- State of the admission system.  `units` is the `EFD_SEMAPHORE`
eventfd counter (`counting_semaphore`, server.cc lines 57-100); `pending`
records whether the one outstanding 8-byte semaphore read — issued when
the most recent session's `semaphore_object` was created, and awaited by
the listener before its next accept (server.cc line 759) — has not yet
completed; `active` is the number of sessions started and not yet ended. -/
structure sem_state where
  units : Nat
  pending : Bool
  active : Nat
deriving DecidableEq

/-- Transitions of the admission system (server.cc lines 57-100 and
748-761): `accept` models the listener accepting a connection and
starting its session together with a fresh `semaphore_object` whose
acquiring read is now outstanding (only possible when no read is already
outstanding, because the listener loop resumes only from the read's
completion handler); `acquire` models the eventfd read completing, which
requires a positive counter and decrements it by one (`EFD_SEMAPHORE`);
`release` models a session ending: the `semaphore_object` destructor
writes 1 back to the eventfd (server.cc lines 85-89). -/
inductive sem_step : sem_state → sem_state → Prop
  | accept (u a : Nat) : sem_step ⟨u, false, a⟩ ⟨u, true, a + 1⟩
  | acquire (u a : Nat) : sem_step ⟨u + 1, true, a⟩ ⟨u, false, a⟩
  | release (u a : Nat) (p : Bool) : sem_step ⟨u, p, a + 1⟩ ⟨u + 1, p, a⟩

/-- States reachable from the listener's initial configuration. -/
inductive sem_reachable (N : Nat) : sem_state → Prop
  | init : sem_reachable N ⟨listener_semaphore_initial N, false, 0⟩
  | step (s t : sem_state) : sem_reachable N s → sem_step s t → sem_reachable N t

theorem sem_invariant (N : Nat) (hN : 1 ≤ N) (s : sem_state) (h : sem_reachable N s) :
    s.active + s.units + 1 = N + (if s.pending then 1 else 0) := by
  induction h with
  | init =>
    simp only [listener_semaphore_initial]
    simp
    omega
  | step s t _ hst ih =>
    cases hst with
    | accept u a =>
      simp at ih ⊢
      omega
    | acquire u a =>
      simp at ih ⊢
      omega
    | release u a p =>
      cases p <;> simp at ih ⊢ <;> omega

/-- Claim C4 (amended): the semaphore's eventfd is initialized to
`max_connections - 1`, not `max_connections`; a session's permit
acquisition is issued when the session starts and must complete before
the listener's next accept, so at most one started session's acquisition
is outstanding, and a permit's destruction returns exactly one unit —
consequently the number of concurrently-active sessions never exceeds
`max_connections`. -/
theorem c4_admission_bound (N : Nat) (hN : 1 ≤ N) (s : sem_state)
    (h : sem_reachable N s) : s.active ≤ N := by
  have hi := sem_invariant N hN s h
  cases hp : s.pending <;> simp [hp] at hi <;> omega

/-- Witness for `c4_admission_bound` at `max_connections = 1` and the
initial state. -/
theorem c4_admission_bound_witness :
    (1 ≤ 1 ∧ sem_reachable 1 ⟨listener_semaphore_initial 1, false, 0⟩) ∧
    (⟨listener_semaphore_initial 1, false, 0⟩ : sem_state).active ≤ 1 :=
  ⟨⟨by decide, sem_reachable.init⟩,
   c4_admission_bound 1 (by decide) _ sem_reachable.init⟩

/-- Counterexample to claim C4 as stated: the claim says the counting
semaphore is initialized to `max_connections`, but the listener
constructs it with `config.system.max_connections - 1` (server.cc line
769); at `max_connections = 4` the initial count is 3, not 4. -/
theorem c4_counterexample : listener_semaphore_initial 4 = 3 ∧ (3 : Nat) ≠ 4 :=
  ⟨rfl, by decide⟩
